import Mathlib

/-!
GCLChain: a verification development.

Shallow embedding of selected parts of the repository:

* `miner/miner.go`      : the one-shot downloader gate of the miner (`Miner.update`),
* `gcl/backend.go`      : `Gclchain.StartMining`,
* `mobile/ggcl.go`      : `NewNode`,
* `accounts/abi/abi.go`, `accounts/abi/mgclod.go` : the contract ABI,
* `vendor/github.com/dgrijalva/jwt-go/none.go`, `hmac.go` : the signing methods `none` and
  HMAC.

The retrieve manager, the header chain segment of the downloader and the request
distributor are not among the sources; they are modelled from the specification.

Go strings are Lean strings, `[]byte` is `List UInt8`, `int32` fields that only
ever hold `0` and `1` are `Int`, Go maps are association lists with unique keys
written in iteration order.
-/

namespace miner

/-- Account addresses (`common.Address`); only identity matters here. -/
abbrev Address := Nat

/-- Modelled from the spec: the `worker` of `miner/worker.go`, which is not among the
sources. The spec speaks of the miner "currently mining", of "stop mining" and of "resume":
the worker carries a running flag that `start` raises, `stop` lowers and `isRunning` reads,
and the address it mines for. -/
structure Worker where
  running : Bool
  coinbase : Address
deriving DecidableEq, Repr

/-- Modelled from the spec: `worker.start`, after which the miner is mining. -/
def Worker.start (w : Worker) : Worker := { w with running := true }

/-- Modelled from the spec: `worker.stop`, after which the miner is not mining. -/
def Worker.stop (w : Worker) : Worker := { w with running := false }

/-- Modelled from the spec: `worker.isRunning`, whether the miner is currently mining. -/
def Worker.isRunning (w : Worker) : Bool := w.running

/-- Modelled from the spec: `worker.setGclchainbase`, which records the address only. -/
def Worker.setGclchainbase (w : Worker) (addr : Address) : Worker := { w with coinbase := addr }

/-- Modelled from the spec: `newWorker`, a worker that has not been started. -/
def newWorker : Worker := { running := false, coinbase := 0 }

/-- The `Miner` struct. `subscribed` records whether the goroutine running `update` is still
inside its loop, which is exactly the time during which its subscription to the downloader
events exists (`defer events.Unsubscribe()`). -/
structure Miner where
  worker : Worker
  coinbase : Address
  canStart : Int
  shouldStart : Int
  subscribed : Bool
deriving DecidableEq, Repr

/-- The three downloader events `update` subscribes to. -/
inductive DownloaderEvent where
  | StartEvent
  | DoneEvent
  | FailedEvent
deriving DecidableEq, Repr

/-- `miner.New`: `canStart` is 1, `shouldStart` has the zero value, and `go miner.update()`
enters the loop. -/
def New : Miner :=
  { worker := newWorker, coinbase := 0, canStart := 1, shouldStart := 0, subscribed := true }

/-- `Miner.Mining`. -/
def Miner.Mining (self : Miner) : Bool := self.worker.isRunning

/-- `Miner.SetGclchainbase`. -/
def Miner.SetGclchainbase (self : Miner) (addr : Address) : Miner :=
  { self with coinbase := addr, worker := self.worker.setGclchainbase addr }

/-- `Miner.Start`. -/
def Miner.Start (self : Miner) (coinbase : Address) : Miner :=
  let self := { self with shouldStart := 1 }
  let self := self.SetGclchainbase coinbase
  if self.canStart = 0 then
    self
  else
    { self with worker := self.worker.start }

/-- `Miner.Stop`. -/
def Miner.Stop (self : Miner) : Miner :=
  let self := { self with worker := self.worker.stop }
  { self with shouldStart := 0 }

/-- One iteration of the loop of `Miner.update` on a received event: the body of the type
switch. The `return` of the `DoneEvent`/`FailedEvent` case runs the deferred `Unsubscribe`. -/
def Miner.handle (self : Miner) (ev : DownloaderEvent) : Miner :=
  match ev with
  | .StartEvent =>
    let self := { self with canStart := 0 }
    if self.Mining then
      let self := self.Stop
      { self with shouldStart := 1 }
    else
      self
  | .DoneEvent | .FailedEvent =>
    let shouldStart := decide (self.shouldStart = 1)
    let self := { self with canStart := 1 }
    let self := { self with shouldStart := 0 }
    let self := if shouldStart then self.Start self.coinbase else self
    { self with subscribed := false }

/-- An event posted on the mux reaches `update` only while its subscription exists. -/
def Miner.deliver (self : Miner) (ev : DownloaderEvent) : Miner :=
  if self.subscribed then self.handle ev else self

/-- `Miner.update` over a sequence of posted events. -/
def Miner.update (self : Miner) (evs : List DownloaderEvent) : Miner :=
  evs.foldl Miner.deliver self

/-- What can happen to a miner from outside: a downloader event is posted, or one of
`Start`, `Stop`, `SetGclchainbase` is called. -/
inductive Action where
  | event (ev : DownloaderEvent)
  | start (coinbase : Address)
  | stop
  | setGclchainbase (addr : Address)
deriving DecidableEq, Repr

/-- The effect of one action. -/
def Miner.act (self : Miner) : Action → Miner
  | .event ev => self.deliver ev
  | .start coinbase => self.Start coinbase
  | .stop => self.Stop
  | .setGclchainbase addr => self.SetGclchainbase addr

/-- The states a miner can be in after `miner.New`. -/
inductive Reachable : Miner → Prop where
  | new : Reachable New
  | act (m : Miner) (a : Action) : Reachable m → Reachable (m.act a)

/-- What holds of every miner state: `canStart` is 0 or 1; while it is 0 the worker does not
run; while it is 1 the worker runs exactly when `shouldStart` is 1. -/
def Inv (m : Miner) : Prop :=
  (m.canStart = 0 ∧ m.worker.running = false) ∨
  (m.canStart = 1 ∧ (m.shouldStart = 1 ↔ m.worker.running = true))

end miner

namespace gcl

/-- Account addresses (`common.Address`); `0` is the zero address `common.Address{}`. -/
abbrev Address := Nat

/-- The calls `StartMining` makes on its collaborators (consensus engine, transaction pool,
protocol manager, miner), none of which is among the sources: each call is recorded with its
arguments, in program order. -/
inductive Call where
  /-- The call `th.SetThreads(threads)` on the consensus engine. -/
  | SetThreads (threads : Int)
  /-- The call `s.txPool.SetGasPrice(price)`. -/
  | SetGasPrice (price : Int)
  /-- The call `clique.Authorize(eb, wallet.SignHash)`. -/
  | Authorize (eb : Address)
  /-- The store `atomic.StoreUint32(&s.protocolManager.acceptTxs, 1)`. -/
  | AcceptTxs
  /-- The spawned `go s.miner.Start(eb)`. -/
  | MinerStart (eb : Address)
deriving DecidableEq, Repr

/-- The errors of `StartMining`. -/
inductive StartMiningError where
  /-- The error "gclchainbase missing". -/
  | gclchainbaseMissing
  /-- The error "signer missing". -/
  | signerMissing
deriving DecidableEq, Repr

/-- The fields of `Gclchain` that `StartMining` reads or writes. `engineThreaded` says whether
`s.engine` has a `SetThreads` method, `engineClique` whether it is a `*clique.Clique`,
`mining` is `s.miner.Mining()`, `wallets` lists the accounts of each wallet of the account
manager and `findWallet` says whether `accountManager.Find` returns a wallet and no error. -/
structure Gclchain where
  engineThreaded : Bool
  engineClique : Bool
  mining : Bool
  gasPrice : Int
  gclchainbase : Address
  wallets : List (List Address)
  findWallet : Address → Bool

/-- `Gclchain.IsMining`. -/
def Gclchain.IsMining (s : Gclchain) : Bool := s.mining

/-- `Gclchain.Gclchainbase`: the configured address, else the first account of the first
wallet (which is then stored), else an error. -/
def Gclchain.Gclchainbase (s : Gclchain) : Gclchain × Option Address :=
  let gclchainbase := s.gclchainbase
  if gclchainbase ≠ 0 then
    (s, some gclchainbase)
  else
    match s.wallets with
    | (gclchainbase :: _) :: _ => ({ s with gclchainbase := gclchainbase }, some gclchainbase)
    | _ => (s, none)

/-- What a call of `StartMining` does: the new state, the calls made on the collaborators and
the returned error. -/
structure StartMiningResult where
  state : Gclchain
  calls : List Call
  err : Option StartMiningError

/-- `Gclchain.StartMining`. -/
def Gclchain.StartMining (s : Gclchain) (threads : Int) : StartMiningResult :=
  -- Update the thread count within the consensus engine
  let calls : List Call :=
    if s.engineThreaded then
      let threads := if threads = 0 then -1 else threads
      [Call.SetThreads threads]
    else
      []
  -- If the miner was not running, initialize it
  if !s.IsMining then
    let price := s.gasPrice
    let calls := calls ++ [Call.SetGasPrice price]
    match s.Gclchainbase with
    | (s, none) => { state := s, calls := calls, err := some .gclchainbaseMissing }
    | (s, some eb) =>
      if s.engineClique then
        if !s.findWallet eb then
          { state := s, calls := calls, err := some .signerMissing }
        else
          { state := s
            calls := calls ++ [Call.Authorize eb, Call.AcceptTxs, Call.MinerStart eb]
            err := none }
      else
        { state := s, calls := calls ++ [Call.AcceptTxs, Call.MinerStart eb], err := none }
  else
    { state := s, calls := calls, err := none }

end gcl

namespace mobile

/-- An `Enodes` value: the wrapped slice of discovery nodes, each an identifier here. -/
abbrev Enodes := List Nat

/-- `NodeConfig`. `BootstrapNodes` is a pointer and may be nil. -/
structure NodeConfig where
  BootstrapNodes : Option Enodes
  MaxPeers : Int
  GclchainEnabled : Bool
  GclchainNetworkID : Int
  GclchainGenesis : String
  GclchainDatabaseCache : Int
  GclchainNetStats : String
  WhisperEnabled : Bool
  PprofAddress : String
deriving DecidableEq, Repr

/-- The constants and functions `NewNode` uses that are declared outside `mobile/ggcl.go`. -/
structure Env where
  FoundationBootnodes : Enodes
  clientIdentifier : String
  VersionWithMeta : String
  filepathJoin : String → String → String

/-- `defaultNodeConfig`. -/
def defaultNodeConfig (env : Env) : NodeConfig :=
  { BootstrapNodes := some env.FoundationBootnodes
    MaxPeers := 25
    GclchainEnabled := true
    GclchainNetworkID := 1
    GclchainGenesis := ""
    GclchainDatabaseCache := 16
    GclchainNetStats := ""
    WhisperEnabled := false
    PprofAddress := "" }

/-- `NewNodeConfig`. -/
def NewNodeConfig (env : Env) : NodeConfig := defaultNodeConfig env

/-- `Enodes.Size`. -/
def Enodes.Size (e : Enodes) : Nat := e.length

/-- The NAT setting of `p2p.Config`; `NewNode` always passes `nat.Any()`. -/
inductive NAT where
  | any
deriving DecidableEq, Repr

/-- The fields of `p2p.Config` that `NewNode` sets. -/
structure P2PConfig where
  NoDiscovery : Bool
  DiscoveryV5 : Bool
  BootstrapNodesV5 : Enodes
  ListenAddr : String
  NAT : NAT
  MaxPeers : Int
deriving DecidableEq, Repr

/-- The fields of `node.Config` that `NewNode` sets. -/
structure Config where
  Name : String
  Version : String
  DataDir : String
  KeyStoreDir : String
  P2P : P2PConfig
deriving DecidableEq, Repr

/-- `NewNode` up to its call of `node.New`: the configuration handed to `node.New`. The
profiler start and the registration of services that follow do not touch that value. -/
def NewNode (env : Env) (datadir : String) (config : Option NodeConfig) : Config :=
  -- If no or partial configurations were specified, use defaults
  let config := match config with
    | none => NewNodeConfig env
    | some config => config
  let config :=
    if config.MaxPeers = 0 then { config with MaxPeers := (defaultNodeConfig env).MaxPeers }
    else config
  let config :=
    match config.BootstrapNodes with
    | none => { config with BootstrapNodes := (defaultNodeConfig env).BootstrapNodes }
    | some nodes =>
      if Enodes.Size nodes = 0 then
        { config with BootstrapNodes := (defaultNodeConfig env).BootstrapNodes }
      else config
  -- Create the empty networking stack
  { Name := env.clientIdentifier
    Version := env.VersionWithMeta
    DataDir := datadir
    KeyStoreDir := env.filepathJoin datadir "keystore"
    P2P :=
      { NoDiscovery := true
        DiscoveryV5 := true
        BootstrapNodesV5 := config.BootstrapNodes.getD []
        ListenAddr := ":0"
        NAT := NAT.any
        MaxPeers := config.MaxPeers } }

end mobile

namespace abi

/-- Go byte slices. -/
abbrev Bytes := List UInt8

/-- A Go `map[string]α`: its entries, keys unique, in the order a `range` visits them. -/
abbrev GoMap (α : Type) := List (String × α)

/-- The lookup `m[k]` with its `ok` flag. -/
def GoMap.get {α : Type} : GoMap α → String → Option α
  | [], _ => none
  | (k, v) :: rest, name => if k = name then some v else GoMap.get rest name

/-- The assignment `m[k] = v`: an existing entry for `k` is replaced. -/
def GoMap.set {α : Type} (m : GoMap α) (k : String) (v : α) : GoMap α :=
  (k, v) :: m.filter (fun e => e.1 ≠ k)

/-- `Argument`; its `Type` field is written `Typ`. The ABI type `Type` is declared in
`type.go`, which is not among the sources, and is the parameter `Ty`. -/
structure Argument (Ty : Type) where
  Name : String
  Typ : Ty
  Indexed : Bool
deriving DecidableEq

/-- `Arguments`. -/
abbrev Arguments (Ty : Type) := List (Argument Ty)

/-- `Mgclod`. -/
structure Mgclod (Ty : Type) where
  Name : String
  Const : Bool
  Inputs : Arguments Ty
  Outputs : Arguments Ty
deriving DecidableEq

/-- `Event`. -/
structure Event (Ty : Type) where
  Name : String
  Anonymous : Bool
  Inputs : Arguments Ty
deriving DecidableEq

/-- `ABI`. -/
structure ABI (Ty : Type) where
  Constructor : Mgclod Ty
  Mgclods : GoMap (Mgclod Ty)
  Events : GoMap (Event Ty)
deriving DecidableEq

/-- The errors the functions of `abi.go` build themselves, and `other` for an error handed
back by a function they call. -/
inductive Error where
  /-- The error "mgclod '%s' not found" of `Pack`. -/
  | mgclodNotFound (name : String)
  /-- The error "abi: unmarshalling empty output" of `Unpack`. -/
  | emptyOutput
  /-- The error "abi: improperly formatted output" of `Unpack`. -/
  | improperlyFormatted (output : Bytes)
  /-- The error "abi: could not locate named mgclod or event" of `Unpack`. -/
  | couldNotLocate
  /-- The error "data too short" of `MgclodById`, with the length it reports. -/
  | dataTooShort (len : Nat)
  /-- The error "no mgclod with id" of `MgclodById`, with the id it reports. -/
  | noMgclodWithId (id : Bytes)
  /-- An error returned by a called function. -/
  | other (msg : String)
deriving DecidableEq

/-- The element type of the slice `fields` that `UnmarshalJSON` decodes into; its `Type`
field is written `Typ`. -/
structure Field (Ty : Type) where
  Typ : String
  Name : String
  Constant : Bool
  Anonymous : Bool
  Inputs : Arguments Ty
  Outputs : Arguments Ty

/-- The functions `abi.go` and `mgclod.go` call that are declared elsewhere: `Type.String`
(`type.go`), `crypto.Keccak256`, `Arguments.Pack` and `Arguments.Unpack` (`argument.go`) and
`json.Unmarshal` at the type of `fields`. `Val` is the type of the packed values
(`interface{}`), `Dst` the type of what `Unpack` fills in through its pointer `v`. -/
structure Deps (Ty Val Dst : Type) where
  typeString : Ty → String
  Keccak256 : Bytes → Bytes
  Pack : Arguments Ty → List Val → Except Error Bytes
  Unpack : Arguments Ty → Dst → Bytes → Dst × Option Error
  jsonUnmarshal : Bytes → Except Error (List (Field Ty))

/-- The conversion `[]byte(s)`. -/
def stringBytes (s : String) : Bytes := s.toUTF8.data.toList

section
variable {Ty Val Dst : Type}

/-- `Mgclod.Sig`. -/
def Mgclod.Sig (deps : Deps Ty Val Dst) (mgclod : Mgclod Ty) : String :=
  let types := mgclod.Inputs.map (fun input => deps.typeString input.Typ)
  mgclod.Name ++ "(" ++ ",".intercalate types ++ ")"

/-- `Mgclod.Id`. -/
def Mgclod.Id (deps : Deps Ty Val Dst) (mgclod : Mgclod Ty) : Bytes :=
  (deps.Keccak256 (stringBytes (mgclod.Sig deps))).take 4

/-- `ABI.Pack`. An error return carries nil data. -/
def ABI.Pack (deps : Deps Ty Val Dst) (abi : ABI Ty) (name : String) (args : List Val) :
    Except Error Bytes :=
  if name = "" then
    -- constructor
    match deps.Pack abi.Constructor.Inputs args with
    | .error err => .error err
    | .ok arguments => .ok arguments
  else
    match abi.Mgclods.get name with
    | none => .error (.mgclodNotFound name)
    | some mgclod =>
      match deps.Pack mgclod.Inputs args with
      | .error err => .error err
      | .ok arguments => .ok (mgclod.Id deps ++ arguments)

/-- `ABI.Unpack`: the destination after the call and the returned error. -/
def ABI.Unpack (deps : Deps Ty Val Dst) (abi : ABI Ty) (v : Dst) (name : String)
    (output : Bytes) : Dst × Option Error :=
  if output.length = 0 then
    (v, some .emptyOutput)
  else
    match abi.Mgclods.get name with
    | some mgclod =>
      if output.length % 32 ≠ 0 then
        (v, some (.improperlyFormatted output))
      else
        deps.Unpack mgclod.Outputs v output
    | none =>
      match abi.Events.get name with
      | some event => deps.Unpack event.Inputs v output
      | none => (v, some .couldNotLocate)

/-- The body of the loop of `UnmarshalJSON`: the switch on `field.Type`. -/
def ABI.addField (abi : ABI Ty) (field : Field Ty) : ABI Ty :=
  if field.Typ = "constructor" then
    let mgclod : Mgclod Ty :=
      { Name := "", Const := false, Inputs := field.Inputs, Outputs := [] }
    { abi with Constructor := mgclod }
  else if field.Typ = "function" ∨ field.Typ = "" then
    let mgclod : Mgclod Ty :=
      { Name := field.Name
        Const := field.Constant
        Inputs := field.Inputs
        Outputs := field.Outputs }
    { abi with Mgclods := abi.Mgclods.set field.Name mgclod }
  else if field.Typ = "event" then
    let event : Event Ty :=
      { Name := field.Name
        Anonymous := field.Anonymous
        Inputs := field.Inputs }
    { abi with Events := abi.Events.set field.Name event }
  else
    abi

/-- `ABI.UnmarshalJSON`: the receiver after the call and the returned error. -/
def ABI.UnmarshalJSON (deps : Deps Ty Val Dst) (abi : ABI Ty) (data : Bytes) :
    ABI Ty × Option Error :=
  match deps.jsonUnmarshal data with
  | .error err => (abi, some err)
  | .ok fields =>
    let abi := { abi with Mgclods := [] }
    let abi := { abi with Events := [] }
    (fields.foldl ABI.addField abi, none)

/-- The loop of `MgclodById` over the entries of `abi.Mgclods`. -/
def MgclodById.loop (deps : Deps Ty Val Dst) (sigdata : Bytes) :
    GoMap (Mgclod Ty) → Option (Mgclod Ty)
  | [] => none
  | (_, mgclod) :: rest =>
    if mgclod.Id deps = sigdata.take 4 then some mgclod
    else MgclodById.loop deps sigdata rest

/-- `ABI.MgclodById`. An error return carries a nil method. -/
def ABI.MgclodById (deps : Deps Ty Val Dst) (abi : ABI Ty) (sigdata : Bytes) :
    Except Error (Mgclod Ty) :=
  if sigdata.length < 4 then
    .error (.dataTooShort sigdata.length)
  else
    match MgclodById.loop deps sigdata abi.Mgclods with
    | some mgclod => .ok mgclod
    | none => .error (.noMgclodWithId (sigdata.take 4))

end

/-- The type strings of a signature as the documentation of `Sig` words it: in order,
joined by a comma, nothing else between them. -/
def commaJoined : List (List Char) → List Char
  | [] => []
  | [t] => t
  | t :: u :: rest => t ++ ',' :: commaJoined (u :: rest)

/-- The signature as the documentation of `Sig` words it: the name, an opening parenthesis,
the joined type strings, a closing parenthesis. -/
def signatureChars (name : List Char) (types : List (List Char)) : List Char :=
  name ++ '(' :: commaJoined types ++ [')']

/-! ### Concrete instances, used to evaluate the functions above -/

/-- A stand-in for `crypto.Keccak256` with the right output length: the input, cut or padded
with zeros to 32 bytes. -/
def exampleKeccak256 (b : Bytes) : Bytes := (b ++ List.replicate 32 0).take 32

/-- A stand-in for `Arguments.Pack`: one 32-byte word per value, and an error when the number
of values is not the number of arguments. -/
def examplePack (arguments : Arguments String) (args : List Nat) : Except Error Bytes :=
  if arguments.length = args.length then
    .ok (args.flatMap (fun v => List.replicate 31 0 ++ [UInt8.ofNat v]))
  else
    .error (.other "argument count mismatch")

/-- A stand-in for `Arguments.Unpack`: the destination receives the bytes. -/
def exampleUnpack (_ : Arguments String) (_ : Bytes) (output : Bytes) : Bytes × Option Error :=
  (output, none)

/-- A decoded JSON entry without a type, named `foo`. -/
def exampleEntry : Field String :=
  { Typ := "", Name := "foo", Constant := false, Anonymous := false,
    Inputs := [⟨"a", "uint32", false⟩, ⟨"b", "int256", false⟩], Outputs := [] }

/-- A decoded JSON array: the entry without a type, a constructor entry (given outputs
too), an event entry and a fallback entry. -/
def exampleFields : List (Field String) :=
  [ exampleEntry,
    { Typ := "constructor", Name := "", Constant := false, Anonymous := false,
      Inputs := [⟨"x", "uint32", false⟩], Outputs := [⟨"y", "bool", false⟩] },
    { Typ := "event", Name := "Sent", Constant := false, Anonymous := false,
      Inputs := [⟨"n", "uint32", false⟩], Outputs := [] },
    { Typ := "fallback", Name := "", Constant := false, Anonymous := false,
      Inputs := [], Outputs := [] } ]

/-- Stand-ins for the functions declared outside `abi.go` and `mgclod.go`, with ABI types
given by their canonical strings and natural numbers as values. -/
def exampleDeps : Deps String Nat Bytes :=
  { typeString := fun t => t
    Keccak256 := exampleKeccak256
    Pack := examplePack
    Unpack := exampleUnpack
    jsonUnmarshal := fun _ => .ok exampleFields }

/-- The method `function foo(uint32 a, int b)`. -/
def exampleFoo : Mgclod String :=
  { Name := "foo"
    Const := false
    Inputs := [⟨"a", "uint32", false⟩, ⟨"b", "int256", false⟩]
    Outputs := [] }

/-- A method without a name and without arguments, as `UnmarshalJSON` registers for an
entry of type function that has no name. -/
def exampleNameless : Mgclod String :=
  { Name := "", Const := false, Inputs := [], Outputs := [] }

/-- The event `Sent(uint32 n)`. -/
def exampleSent : Event String :=
  { Name := "Sent", Anonymous := false, Inputs := [⟨"n", "uint32", false⟩] }

/-- An ABI with a constructor taking one argument, the methods `foo` and the nameless one,
and the event `Sent`. -/
def exampleABI : ABI String :=
  { Constructor := { Name := "", Const := false, Inputs := [⟨"x", "uint32", false⟩],
                     Outputs := [] }
    Mgclods := [("foo", exampleFoo), ("", exampleNameless)]
    Events := [("Sent", exampleSent)] }

end abi
namespace jwt

/-- Go byte slices. -/
abbrev Bytes := List UInt8

/-- A key handed to a signing method as `interface{}`, by its dynamic type: the nil
interface, a value of type `unsafeNoneMagicConstant` (a string type), a `[]byte`, or a value
of any other type. -/
inductive Key where
  | nil
  | noneMagic (value : String)
  | bytes (keyBytes : Bytes)
  | other (tag : Nat)
deriving DecidableEq, Repr

/-- The error values the signing methods return. The package variables `ErrInvalidKey`,
`ErrInvalidKeyType` and `ErrHashUnavailable` and the constructor `NewValidationError` are
declared in `errors.go`, which is not among the sources: each is a distinct non-nil error. -/
inductive Error where
  /-- The value `NewValidationError` builds for the text "none signature type is not
  allowed" with the flag `ValidationErrorSignatureInvalid`. -/
  | noneNotAllowed
  /-- The value `NewValidationError` builds for the text "none signing mgclod with non-empty
  signature" with the flag `ValidationErrorSignatureInvalid`. -/
  | noneNonEmptySignature
  /-- The variable `ErrSignatureInvalid` of `hmac.go`. -/
  | ErrSignatureInvalid
  /-- The variable `ErrInvalidKey`. -/
  | ErrInvalidKey
  /-- The variable `ErrInvalidKeyType`. -/
  | ErrInvalidKeyType
  /-- The variable `ErrHashUnavailable`. -/
  | ErrHashUnavailable
  /-- An error returned by `DecodeSegment`. -/
  | decode (msg : String)
deriving DecidableEq, Repr

/-- The constant `UnsafeAllowNoneSignatureType`. -/
def UnsafeAllowNoneSignatureType : Key := .noneMagic "none signing mgclod allowed"

/-- The variable `NoneSignatureTypeDisallowedError` as `init` sets it. -/
def NoneSignatureTypeDisallowedError : Error := .noneNotAllowed

/-- `signingMgclodNone.Alg`. -/
def signingMgclodNone.Alg : String := "none"

/-- `signingMgclodNone.Verify`; `none` is the nil error. -/
def signingMgclodNone.Verify (_signingString signature : String) (key : Key) : Option Error :=
  match key with
  | .noneMagic _ =>
    -- If signing mgclod is none, signature must be an empty string
    if signature ≠ "" then
      some .noneNonEmptySignature
    else
      -- Accept the none signing mgclod.
      none
  | _ => some NoneSignatureTypeDisallowedError

/-- `signingMgclodNone.Sign`. -/
def signingMgclodNone.Sign (_signingString : String) (key : Key) : String × Option Error :=
  match key with
  | .noneMagic _ => ("", none)
  | _ => ("", some NoneSignatureTypeDisallowedError)

/-- `SigningMgclodHMAC`; `Hash` is a `crypto.Hash`, an unsigned number. -/
structure SigningMgclodHMAC where
  Name : String
  Hash : Nat
deriving DecidableEq, Repr

/-- The functions `hmac.go` calls that are declared elsewhere: `crypto.Hash.Available`, the
keyed hash `hmac.New(hash.New, key)` written with the message and summed, and
`EncodeSegment` and `DecodeSegment` of `token.go`. -/
structure Deps where
  Available : Nat → Bool
  hmacSum : Nat → Bytes → Bytes → Bytes
  EncodeSegment : Bytes → String
  DecodeSegment : String → Except Error Bytes

/-- The conversion `[]byte(s)`. -/
def stringBytes (s : String) : Bytes := s.toUTF8.data.toList

/-- `SigningMgclodHMAC.Alg`. -/
def SigningMgclodHMAC.Alg (m : SigningMgclodHMAC) : String := m.Name

/-- `SigningMgclodHMAC.Verify`; `none` is the nil error. `hmac.Equal` holds exactly of equal
byte slices. -/
def SigningMgclodHMAC.Verify (deps : Deps) (m : SigningMgclodHMAC)
    (signingString signature : String) (key : Key) : Option Error :=
  -- Verify the key is the right type
  match key with
  | .bytes keyBytes =>
    -- Decode signature, for comparison
    match deps.DecodeSegment signature with
    | .error err => some err
    | .ok sig =>
      -- Can we use the specified hashing mgclod?
      if !deps.Available m.Hash then
        some .ErrHashUnavailable
      else
        if !decide (sig = deps.hmacSum m.Hash keyBytes (stringBytes signingString)) then
          some .ErrSignatureInvalid
        else
          none
  | _ => some .ErrInvalidKeyType

/-- `SigningMgclodHMAC.Sign`. -/
def SigningMgclodHMAC.Sign (deps : Deps) (m : SigningMgclodHMAC) (signingString : String)
    (key : Key) : String × Option Error :=
  match key with
  | .bytes keyBytes =>
    if !deps.Available m.Hash then
      ("", some .ErrHashUnavailable)
    else
      (deps.EncodeSegment (deps.hmacSum m.Hash keyBytes (stringBytes signingString)), none)
  | _ => ("", some .ErrInvalidKey)

/-- A stand-in for the functions declared outside `hmac.go`: every hash but number 0 is
available, the keyed hash is the key followed by the message, and a segment is written with
one character per byte. -/
def exampleDeps : Deps :=
  { Available := fun h => h != 0
    hmacSum := fun _ key msg => key ++ msg
    EncodeSegment := fun b => String.mk (b.map (fun x => Char.ofNat x.toNat))
    DecodeSegment := fun s => .ok (s.data.map (fun c => UInt8.ofNat c.toNat)) }

/-- The method `SigningMgclodHS256`, the hash `crypto.SHA256` being number 5. -/
def SigningMgclodHS256 : SigningMgclodHMAC := { Name := "HS256", Hash := 5 }

end jwt

namespace RetrieveManager

/-- Stable node ids of peers. -/
abbrev PeerID := Nat

/-- Modelled from the spec: what an attempt gets from the peer it was assigned to, the
retrieve manager itself (`les/retrieve.go`) not being among the sources. The peer's response
is raced against a per-attempt timeout: either a response arrives or the timeout wins. -/
inductive Reply (R : Type) where
  | response (value : R)
  | timeout
deriving DecidableEq, Repr

/-- Modelled from the spec: the tagged variant `Outcome = Success(value) |
Invalid(peerFault) | Timeout` of one attempt, consumed by the retry policy. -/
inductive Outcome (R : Type) where
  | Success (value : R)
  | Invalid (peerFault : PeerID)
  | Timeout
deriving DecidableEq, Repr

/-- Modelled from the spec: a response counts as a success only when verification succeeds;
an unverifiable response is a fault of the peer that sent it. -/
def classify {R : Type} (verify : R → Bool) (peer : PeerID) : Reply R → Outcome R
  | .response value => if verify value then .Success value else .Invalid peer
  | .timeout => .Timeout

/-- Modelled from the spec: the errors of `retrieve`. Exceeding the retries fails the call
with "no available peer could satisfy request"; a request for which no further peer is
there waits in the queue until its deadline elapses and fails with a timeout error. -/
inductive RetrieveError where
  | noAvailablePeer
  | deadlineElapsed
deriving DecidableEq, Repr

/-- Modelled from the spec: what a call of `retrieve` comes to: the result or the error, and
the peers that were penalized, in order. -/
structure RetrieveResult (R : Type) where
  result : Except RetrieveError R
  penalized : List PeerID

/-- Modelled from the spec: the retry policy of `retrieve`. `peers` are the peers the
distributor can assign, in the order it would; `respond` is what each of them sends back.
The request goes to the first peer; a verified response resolves the call at once; on a
timeout or a response that fails `verify` the peer is penalized and, while retries are
left (the first argument), the request is resubmitted to a different peer. -/
def attempt {R : Type} (respond : PeerID → Reply R) (verify : R → Bool) :
    Nat → List PeerID → List PeerID → RetrieveResult R
  | _, [], penalized => { result := .error .deadlineElapsed, penalized := penalized }
  | 0, peer :: _, penalized =>
    match classify verify peer (respond peer) with
    | .Success value => { result := .ok value, penalized := penalized }
    | _ => { result := .error .noAvailablePeer, penalized := penalized ++ [peer] }
  | n + 1, peer :: rest, penalized =>
    match classify verify peer (respond peer) with
    | .Success value => { result := .ok value, penalized := penalized }
    | _ =>
      attempt respond verify n (rest.filter (fun other => other ≠ peer))
        (penalized ++ [peer])

/-- Modelled from the spec: `retrieve(requestSpec, verify, maxRetries) -> (result, error)`,
the request spec being given by what the peers answer to it. -/
def retrieve {R : Type} (respond : PeerID → Reply R) (verify : R → Bool) (maxRetries : Nat)
    (peers : List PeerID) : RetrieveResult R :=
  attempt respond verify maxRetries peers []

/-- A mock set of peers answering with numbers: peers 1 and 2 send the tampered value 0,
peer 3 does not answer in time, peer 4 sends the value 42, every other peer sends 0. -/
def mockRespond (peer : PeerID) : Reply Nat :=
  if peer = 3 then .timeout else if peer = 4 then .response 42 else .response 0

/-- The verification predicate of the mock request: the value must be 42. -/
def mockVerify (value : Nat) : Bool := value == 42

end RetrieveManager

namespace Downloader

/-- Stable node ids of peers. -/
abbrev PeerID := Nat

/-- Modelled from the spec: a block header as far as the header chain segment looks at it
(the downloader, `gcl/downloader`, is not among the sources apart from its metrics): its
number, the hash of its parent, the total difficulty up to it, and the rest of its content
as a number. -/
structure Header where
  number : Nat
  parentHash : Nat
  td : Nat
  content : Nat
deriving DecidableEq, Repr

/-- Modelled from the spec: the structural check between a header and the one before it:
the parent hash is the hash of the previous header, the number is the next one, and total
difficulty does not decrease. -/
def linked (hash : Header → Nat) (prev cur : Header) : Bool :=
  cur.parentHash == hash prev && cur.number == prev.number + 1 && decide (prev.td ≤ cur.td)

/-- Modelled from the spec: structural validation of a fetched batch that is to continue
after the header `prev`: no break of the hash chain anywhere. -/
def validBatch (hash : Header → Nat) : Header → List Header → Bool
  | _, [] => true
  | prev, cur :: rest => linked hash prev cur && validBatch hash cur rest

/-- Modelled from the spec: the header chain segment being assembled forward from the
common ancestor, and the peers whose batches were dropped. -/
structure Segment where
  ancestor : Header
  headers : List Header
  dropped : List PeerID
deriving DecidableEq, Repr

/-- Modelled from the spec: a sync session starts with an empty segment. -/
def Segment.start (ancestor : Header) : Segment :=
  { ancestor := ancestor, headers := [], dropped := [] }

/-- Modelled from the spec: the header the next batch has to continue after. -/
def Segment.tip (s : Segment) : Header := s.headers.getLast?.getD s.ancestor

/-- Modelled from the spec: a fetched batch that passes structural validation is accepted
into the segment; one that fails is dropped, to be fetched again from a different peer, and
the fault of its peer is recorded. -/
def Segment.deliver (hash : Header → Nat) (s : Segment) (batch : PeerID × List Header) :
    Segment :=
  if validBatch hash s.tip batch.2 then
    { s with headers := s.headers ++ batch.2 }
  else
    { s with dropped := s.dropped ++ [batch.1] }

/-- Modelled from the spec: the headers phase over the batches as they arrive. -/
def Segment.assemble (hash : Header → Nat) (s : Segment)
    (batches : List (PeerID × List Header)) : Segment :=
  batches.foldl (Segment.deliver hash) s

/-- A stand-in for the header hash: a number made of the number and the content. -/
def mockHash (h : Header) : Nat := 1000 * h.number + h.content

/-- A common ancestor at number 10. -/
def mockAncestor : Header := { number := 10, parentHash := 0, td := 100, content := 7 }

/-- Three batches: peer 1 sends the headers 11 and 12, peer 2 a header 13 that breaks the
hash chain, peer 3 the header 13 that continues it. -/
def mockBatches : List (PeerID × List Header) :=
  [ (1, [ { number := 11, parentHash := 10007, td := 101, content := 1 },
          { number := 12, parentHash := 11001, td := 102, content := 2 } ]),
    (2, [ { number := 13, parentHash := 999, td := 103, content := 3 } ]),
    (3, [ { number := 13, parentHash := 12002, td := 103, content := 3 } ]) ]

end Downloader

namespace RequestDistributor

/-- Modelled from the spec: the kinds of request (the request distributor,
`les/distributor.go`, is not among the sources). -/
inductive Kind where
  | headerRange
  | bodies
  | receipts
  | stateNode
  | proof
deriving DecidableEq, Repr

/-- Modelled from the spec: a pending request: an identifier, its kind, a deadline and a
retry counter. -/
structure Request where
  id : Nat
  kind : Kind
  deadline : Nat
  retries : Nat
deriving DecidableEq, Repr

/-- Modelled from the spec: a peer as the distributor sees it: its identity and the kinds
of request it is capable of serving. -/
structure Peer where
  id : Nat
  capabilities : List Kind
deriving DecidableEq, Repr

/-- Modelled from the spec: whether the peer is capable of serving the kind. -/
def Peer.canServe (p : Peer) (kind : Kind) : Bool := decide (kind ∈ p.capabilities)

/-- Modelled from the spec: the distributor: the queued requests in arrival order, oldest
first (the queue of a kind is the part of that kind), the idle peers, the requests in
flight with the peer each was assigned to, in the order of assignment, and the requests
that failed with a timeout while queued. -/
structure Distributor where
  queued : List Request
  idle : List Peer
  inFlight : List (Nat × Request)
  timedOut : List Request
deriving DecidableEq, Repr

/-- Modelled from the spec: a distributor with nothing queued and no peer. -/
def Distributor.empty : Distributor :=
  { queued := [], idle := [], inFlight := [], timedOut := [] }

/-- Modelled from the spec: the queue of one kind. -/
def Distributor.queueOf (d : Distributor) (kind : Kind) : List Request :=
  d.queued.filter (fun r => r.kind = kind)

/-- Modelled from the spec: the oldest queued request the peer is capable of serving, and
the queue without it. -/
def takeOldest (p : Peer) : List Request → Option (Request × List Request)
  | [] => none
  | r :: rest =>
    if p.canServe r.kind then some (r, rest)
    else
      match takeOldest p rest with
      | some (found, others) => some (found, r :: others)
      | none => none

/-- Modelled from the spec: `queue(request)`: the request is assigned to an idle peer that
can serve it; if no capable peer is idle it waits at the back of the queue. -/
def Distributor.queue (d : Distributor) (r : Request) : Distributor :=
  match d.idle.find? (fun p => p.canServe r.kind) with
  | some p => { d with idle := d.idle.erase p, inFlight := d.inFlight ++ [(p.id, r)] }
  | none => { d with queued := d.queued ++ [r] }

/-- Modelled from the spec: `peerAvailable(peer)`: a peer that becomes idle is assigned the
oldest queued request it is capable of serving; if there is none it stays idle. -/
def Distributor.peerAvailable (d : Distributor) (p : Peer) : Distributor :=
  match takeOldest p d.queued with
  | some (r, others) => { d with queued := others, inFlight := d.inFlight ++ [(p.id, r)] }
  | none => { d with idle := d.idle ++ [p] }

/-- Modelled from the spec: a peer disconnects: its requests in flight are queued again at
the front. -/
def Distributor.peerDisconnected (d : Distributor) (peer : Nat) : Distributor :=
  { d with
    queued := ((d.inFlight.filter (fun e => e.1 = peer)).map (fun e => e.2)) ++ d.queued
    idle := d.idle.filter (fun p => p.id ≠ peer)
    inFlight := d.inFlight.filter (fun e => e.1 ≠ peer) }

/-- Modelled from the spec: a queued request whose deadline has elapsed fails with a
timeout error, its retry counter untouched. -/
def Distributor.expire (d : Distributor) (now : Nat) : Distributor :=
  { d with
    queued := d.queued.filter (fun r => now < r.deadline)
    timedOut := d.timedOut ++ d.queued.filter (fun r => r.deadline ≤ now) }

/-- The peers, in the order in which they got a request, of the requests in flight. -/
def Distributor.dispatchedTo (d : Distributor) : List Nat := d.inFlight.map (fun e => e.1)

/-- The requests in flight, in the order in which they were dispatched. -/
def Distributor.dispatched (d : Distributor) : List Request := d.inFlight.map (fun e => e.2)

/-- Three queued requests for proofs, in arrival order. -/
def mockRequests : List Request :=
  [ { id := 100, kind := .proof, deadline := 50, retries := 0 },
    { id := 101, kind := .proof, deadline := 60, retries := 0 },
    { id := 102, kind := .proof, deadline := 70, retries := 0 } ]

/-- Two peers that can serve proofs, peer 8 becoming idle before peer 9. -/
def mockPeers : List Peer :=
  [ { id := 8, capabilities := [.proof, .receipts] },
    { id := 9, capabilities := [.headerRange, .proof] } ]

end RequestDistributor

/-! ## The one-shot downloader gate of the miner -/

namespace miner

/-- Once the subscription is gone, no event changes the miner. -/
theorem deliver_of_unsubscribed (m : Miner) (ev : DownloaderEvent)
    (h : m.subscribed = false) : m.deliver ev = m := by
  simp [Miner.deliver, h]

/-- Once the subscription is gone, no sequence of events changes the miner. -/
theorem update_of_unsubscribed (evs : List DownloaderEvent) :
    ∀ m : Miner, m.subscribed = false → m.update evs = m := by
  induction evs with
  | nil => intro m _; rfl
  | cons ev rest ih =>
    intro m h
    have h1 : m.deliver ev = m := deliver_of_unsubscribed m ev h
    show Miner.update (m.deliver ev) rest = m
    rw [h1]
    exact ih m h

/-- Processing a sequence of events in two parts. -/
theorem update_append (m : Miner) (xs ys : List DownloaderEvent) :
    m.update (xs ++ ys) = (m.update xs).update ys := by
  simp [Miner.update, List.foldl_append]

/-- After a `DoneEvent` has been posted the subscription is gone. -/
theorem deliver_done_unsubscribed (m : Miner) :
    (m.deliver .DoneEvent).subscribed = false := by
  cases hs : m.subscribed <;> simp [Miner.deliver, Miner.handle, hs]

/-- After a `FailedEvent` has been posted the subscription is gone. -/
theorem deliver_failed_unsubscribed (m : Miner) :
    (m.deliver .FailedEvent).subscribed = false := by
  cases hs : m.subscribed <;> simp [Miner.deliver, Miner.handle, hs]

theorem inv_new : Inv New := by
  right
  simp [New, newWorker]

theorem inv_act (m : Miner) (a : Action) (h : Inv m) : Inv (m.act a) := by
  obtain ⟨w, cb, cs, ss, sub⟩ := m
  obtain ⟨run, wcb⟩ := w
  cases a with
  | event ev =>
    cases sub with
    | false => simpa [Miner.act, Miner.deliver] using h
    | true =>
      cases ev with
      | StartEvent =>
        cases run <;>
          simp [Inv, Miner.act, Miner.deliver, Miner.handle, Miner.Mining, Worker.isRunning,
            Miner.Stop, Worker.stop]
      | DoneEvent =>
        by_cases hss : ss = 1
        · simp [Inv, Miner.act, Miner.deliver, Miner.handle, Miner.Start,
            Miner.SetGclchainbase, Worker.setGclchainbase, Worker.start, hss]
        · rcases h with ⟨_, h2⟩ | ⟨_, h2⟩ <;>
            simp_all [Inv, Miner.act, Miner.deliver, Miner.handle]
      | FailedEvent =>
        by_cases hss : ss = 1
        · simp [Inv, Miner.act, Miner.deliver, Miner.handle, Miner.Start,
            Miner.SetGclchainbase, Worker.setGclchainbase, Worker.start, hss]
        · rcases h with ⟨_, h2⟩ | ⟨_, h2⟩ <;>
            simp_all [Inv, Miner.act, Miner.deliver, Miner.handle]
  | start coinbase =>
    rcases h with ⟨h1, h2⟩ | ⟨h1, _⟩
    · left
      simp_all [Miner.act, Miner.Start, Miner.SetGclchainbase, Worker.setGclchainbase]
    · right
      simp_all [Miner.act, Miner.Start, Miner.SetGclchainbase, Worker.setGclchainbase,
        Worker.start]
  | stop =>
    rcases h with ⟨h1, _⟩ | ⟨h1, _⟩
    · left
      simp_all [Miner.act, Miner.Stop, Worker.stop]
    · right
      simp_all [Miner.act, Miner.Stop, Worker.stop]
  | setGclchainbase addr =>
    simpa [Inv, Miner.act, Miner.SetGclchainbase, Worker.setGclchainbase] using h

theorem inv_of_reachable (m : Miner) (h : Reachable m) : Inv m := by
  induction h with
  | new => exact inv_new
  | act m a _ ih => exact inv_act m a ih

/-- C1. Whatever events `pre` came before: once a `DoneEvent` or a `FailedEvent` has been
posted, the loop of `Miner.update` has returned and unsubscribed, and every further sequence
`post` of events leaves the whole miner (so `canStart`, `shouldStart` and the running state of
the worker) as it was after that terminal event. -/
theorem update_one_shot (m : Miner) (pre post : List DownloaderEvent) :
    ((m.update (pre ++ [.DoneEvent])).subscribed = false ∧
      m.update (pre ++ .DoneEvent :: post) = m.update (pre ++ [.DoneEvent])) ∧
    ((m.update (pre ++ [.FailedEvent])).subscribed = false ∧
      m.update (pre ++ .FailedEvent :: post) = m.update (pre ++ [.FailedEvent])) := by
  have key : ∀ t : DownloaderEvent, (∀ x : Miner, (x.deliver t).subscribed = false) →
      (m.update (pre ++ [t])).subscribed = false ∧
        m.update (pre ++ t :: post) = m.update (pre ++ [t]) := by
    intro t ht
    have h1 : (m.update (pre ++ [t])).subscribed = false := by
      rw [update_append]
      exact ht (m.update pre)
    refine ⟨h1, ?_⟩
    have h2 : pre ++ t :: post = (pre ++ [t]) ++ post := by simp
    rw [h2, update_append]
    exact update_of_unsubscribed post _ h1
  exact ⟨key _ deliver_done_unsubscribed, key _ deliver_failed_unsubscribed⟩

/-- C2. From a miner that is mining with its gate subscribed, the events Start, Done, Start,
Failed: the first Start suspends mining, the first Done resumes it with `canStart = 1` and
ends the subscription, and the second Start and the Failed change nothing. -/
theorem start_done_start_failed (m : Miner) (hm : m.Mining = true)
    (hs : m.subscribed = true) :
    (m.update [.StartEvent]).Mining = false ∧
    (m.update [.StartEvent, .DoneEvent]).Mining = true ∧
    (m.update [.StartEvent, .DoneEvent]).canStart = 1 ∧
    (m.update [.StartEvent, .DoneEvent]).subscribed = false ∧
    m.update [.StartEvent, .DoneEvent, .StartEvent] = m.update [.StartEvent, .DoneEvent] ∧
    m.update [.StartEvent, .DoneEvent, .StartEvent, .FailedEvent] =
      m.update [.StartEvent, .DoneEvent] := by
  obtain ⟨w, cb, cs, ss, sub⟩ := m
  obtain ⟨run, wcb⟩ := w
  simp only [Miner.Mining, Worker.isRunning] at hm
  simp only at hs
  subst hm
  subst hs
  simp [Miner.update, Miner.deliver, Miner.handle, Miner.Mining, Worker.isRunning,
    Miner.Stop, Worker.stop, Miner.Start, Miner.SetGclchainbase, Worker.setGclchainbase,
    Worker.start]

/-- C2 at the miner obtained from `New` by `Start 7`. -/
theorem start_done_start_failed_witness :
    (New.Start 7).Mining = true ∧ (New.Start 7).subscribed = true ∧
    ((New.Start 7).update [.StartEvent]).Mining = false ∧
    ((New.Start 7).update [.StartEvent, .DoneEvent]).Mining = true ∧
    ((New.Start 7).update [.StartEvent, .DoneEvent]).canStart = 1 ∧
    ((New.Start 7).update [.StartEvent, .DoneEvent]).subscribed = false ∧
    (New.Start 7).update [.StartEvent, .DoneEvent, .StartEvent] =
      (New.Start 7).update [.StartEvent, .DoneEvent] ∧
    (New.Start 7).update [.StartEvent, .DoneEvent, .StartEvent, .FailedEvent] =
      (New.Start 7).update [.StartEvent, .DoneEvent] :=
  ⟨by decide, by decide, start_done_start_failed (New.Start 7) (by decide) (by decide)⟩

/-- C3 as stated fails: after `New`, a `StartEvent` and a call `Start 7` (deferred, the
network is syncing) the state is reachable with the gate subscribed and the miner is not
mining; a `StartEvent` followed by a `DoneEvent` or a `FailedEvent` leaves it mining. -/
theorem resume_iff_was_mining_counterexample :
    Reachable ((New.deliver .StartEvent).Start 7) ∧
    ((New.deliver .StartEvent).Start 7).subscribed = true ∧
    ((New.deliver .StartEvent).Start 7).Mining = false ∧
    ((((New.deliver .StartEvent).Start 7).deliver .StartEvent).deliver .DoneEvent).Mining
      = true ∧
    ((((New.deliver .StartEvent).Start 7).deliver .StartEvent).deliver .FailedEvent).Mining
      = true :=
  ⟨Reachable.act _ (.start 7) (Reachable.act _ (.event .StartEvent) Reachable.new),
    by decide, by decide, by decide, by decide⟩

/-- C3, amended. For every state reachable from `New` with the gate subscribed: a
`StartEvent` sets `canStart` to 0 and, if the miner was mining, stops the worker and records
`shouldStart = 1` (otherwise worker and `shouldStart` are untouched); the following
`DoneEvent` or `FailedEvent` sets `canStart` to 1 and leaves the miner mining if and only if
it was mining before the `StartEvent` or `shouldStart` was already 1 then; when `canStart`
was 1 before the `StartEvent` that is if and only if it was mining. -/
theorem resume_iff_should_start (m : Miner) (hr : Reachable m) (hs : m.subscribed = true)
    (t : DownloaderEvent) (ht : t ≠ .StartEvent) :
    (m.deliver .StartEvent).canStart = 0 ∧
    (m.Mining = true →
      (m.deliver .StartEvent).Mining = false ∧ (m.deliver .StartEvent).shouldStart = 1) ∧
    (m.Mining = false →
      (m.deliver .StartEvent).worker = m.worker ∧
        (m.deliver .StartEvent).shouldStart = m.shouldStart) ∧
    ((m.deliver .StartEvent).deliver t).canStart = 1 ∧
    (((m.deliver .StartEvent).deliver t).Mining = true ↔
      (m.Mining = true ∨ m.shouldStart = 1)) ∧
    (m.canStart = 1 →
      (((m.deliver .StartEvent).deliver t).Mining = true ↔ m.Mining = true)) := by
  have hinv := inv_of_reachable m hr
  obtain ⟨w, cb, cs, ss, sub⟩ := m
  obtain ⟨run, wcb⟩ := w
  simp only at hs
  subst hs
  have body : ∀ u : DownloaderEvent, u = .DoneEvent ∨ u = .FailedEvent →
      (Miner.deliver ⟨⟨run, wcb⟩, cb, cs, ss, true⟩ .StartEvent).canStart = 0 ∧
      (Miner.Mining ⟨⟨run, wcb⟩, cb, cs, ss, true⟩ = true →
        (Miner.deliver ⟨⟨run, wcb⟩, cb, cs, ss, true⟩ .StartEvent).Mining = false ∧
        (Miner.deliver ⟨⟨run, wcb⟩, cb, cs, ss, true⟩ .StartEvent).shouldStart = 1) ∧
      (Miner.Mining ⟨⟨run, wcb⟩, cb, cs, ss, true⟩ = false →
        (Miner.deliver ⟨⟨run, wcb⟩, cb, cs, ss, true⟩ .StartEvent).worker = ⟨run, wcb⟩ ∧
        (Miner.deliver ⟨⟨run, wcb⟩, cb, cs, ss, true⟩ .StartEvent).shouldStart = ss) ∧
      ((Miner.deliver ⟨⟨run, wcb⟩, cb, cs, ss, true⟩ .StartEvent).deliver u).canStart = 1 ∧
      (((Miner.deliver ⟨⟨run, wcb⟩, cb, cs, ss, true⟩ .StartEvent).deliver u).Mining = true ↔
        (Miner.Mining ⟨⟨run, wcb⟩, cb, cs, ss, true⟩ = true ∨ ss = 1)) ∧
      (cs = 1 →
        (((Miner.deliver ⟨⟨run, wcb⟩, cb, cs, ss, true⟩ .StartEvent).deliver u).Mining = true ↔
          Miner.Mining ⟨⟨run, wcb⟩, cb, cs, ss, true⟩ = true)) := by
    intro u hu
    have hcs : cs = 1 → (ss = 1 ↔ run = true) := by
      intro h1
      rcases hinv with ⟨h0, _⟩ | ⟨_, h2⟩
      · simp only at h0
        omega
      · simpa using h2
    rcases hu with rfl | rfl <;> cases run <;> by_cases hss : ss = 1 <;>
      simp_all [Miner.deliver, Miner.handle, Miner.Mining, Worker.isRunning,
        Miner.Stop, Worker.stop, Miner.Start, Miner.SetGclchainbase, Worker.setGclchainbase,
        Worker.start]
  cases t with
  | StartEvent => exact absurd rfl ht
  | DoneEvent => exact body _ (Or.inl rfl)
  | FailedEvent => exact body _ (Or.inr rfl)

/-- C3, amended, at the miner obtained from `New` by `Start 7`, for a `DoneEvent`. -/
theorem resume_iff_should_start_witness :
    Reachable (New.Start 7) ∧ (New.Start 7).subscribed = true ∧
    DownloaderEvent.DoneEvent ≠ DownloaderEvent.StartEvent ∧
    ((New.Start 7).deliver .StartEvent).canStart = 0 ∧
    ((New.Start 7).Mining = true →
      ((New.Start 7).deliver .StartEvent).Mining = false ∧
        ((New.Start 7).deliver .StartEvent).shouldStart = 1) ∧
    ((New.Start 7).Mining = false →
      ((New.Start 7).deliver .StartEvent).worker = (New.Start 7).worker ∧
        ((New.Start 7).deliver .StartEvent).shouldStart = (New.Start 7).shouldStart) ∧
    (((New.Start 7).deliver .StartEvent).deliver .DoneEvent).canStart = 1 ∧
    ((((New.Start 7).deliver .StartEvent).deliver .DoneEvent).Mining = true ↔
      ((New.Start 7).Mining = true ∨ (New.Start 7).shouldStart = 1)) ∧
    ((New.Start 7).canStart = 1 →
      ((((New.Start 7).deliver .StartEvent).deliver .DoneEvent).Mining = true ↔
        (New.Start 7).Mining = true)) :=
  ⟨Reachable.act New (.start 7) Reachable.new, by decide, by decide,
    resume_iff_should_start (New.Start 7) (Reachable.act New (.start 7) Reachable.new)
      (by decide) .DoneEvent (by decide)⟩

end miner

/-! ## `Gclchain.StartMining` -/

namespace gcl

/-- While the miner is mining, `StartMining` makes no call other than `SetThreads`, returns
no error and leaves the state alone. -/
theorem startMining_mining_calls (s : Gclchain) (threads : Int) :
    (({ s with mining := true } : Gclchain).StartMining threads).calls =
      (if s.engineThreaded then [Call.SetThreads (if threads = 0 then -1 else threads)]
        else []) ∧
    (({ s with mining := true } : Gclchain).StartMining threads).err = none := by
  simp [Gclchain.StartMining, Gclchain.IsMining]

/-- C4 on the code. With a threaded engine, the miner already mining and a gas price of
1000000000, `StartMining 4` makes the single call `SetThreads 4`: the thread count is
adjusted, but `txPool.SetGasPrice` is not applied. -/
theorem startMining_while_mining_skips_gas_price :
    (Gclchain.StartMining
      { engineThreaded := true, engineClique := false, mining := true,
        gasPrice := 1000000000, gclchainbase := 1, wallets := [],
        findWallet := fun _ => false } 4).calls = [Call.SetThreads 4] ∧
    Call.SetGasPrice 1000000000 ∉ (Gclchain.StartMining
      { engineThreaded := true, engineClique := false, mining := true,
        gasPrice := 1000000000, gclchainbase := 1, wallets := [],
        findWallet := fun _ => false } 4).calls ∧
    Call.SetGasPrice 1000000000 ∈ (Gclchain.StartMining
      { engineThreaded := true, engineClique := false, mining := false,
        gasPrice := 1000000000, gclchainbase := 1, wallets := [],
        findWallet := fun _ => false } 4).calls := by
  refine ⟨by decide, by decide, by decide⟩

end gcl

/-! ## `NewNode` -/

namespace mobile

/-- C5 on the code. A `NodeConfig` whose `MaxPeers` is zero is given the default: the
`p2p.Config.MaxPeers` handed to `node.New` is 25, not 0. -/
theorem newNode_maxPeers_zero (env : Env) (datadir : String) (config : NodeConfig) :
    (NewNode env datadir (some { config with MaxPeers := 0 })).P2P.MaxPeers = 25 := by
  cases hb : config.BootstrapNodes with
  | none => simp [NewNode, defaultNodeConfig, hb]
  | some nodes =>
    by_cases hn : Enodes.Size nodes = 0 <;> simp [NewNode, defaultNodeConfig, hb, hn]

/-- Any other `MaxPeers` is handed to `node.New` as it is. -/
theorem newNode_maxPeers_nonzero (env : Env) (datadir : String) (config : NodeConfig)
    (h : config.MaxPeers ≠ 0) :
    (NewNode env datadir (some config)).P2P.MaxPeers = config.MaxPeers := by
  cases hb : config.BootstrapNodes with
  | none => simp [NewNode, defaultNodeConfig, hb, h]
  | some nodes =>
    by_cases hn : Enodes.Size nodes = 0 <;> simp [NewNode, defaultNodeConfig, hb, hn, h]

end mobile

/-! ## The contract ABI -/

namespace abi

theorem GoMap.get_set_self {α : Type} (m : GoMap α) (k : String) (v : α) :
    (m.set k v).get k = some v := by
  simp [GoMap.set, GoMap.get]

theorem GoMap.get_filter_ne {α : Type} (k name : String) (h : name ≠ k) :
    ∀ m : GoMap α, GoMap.get (m.filter (fun e => e.1 ≠ k)) name = GoMap.get m name := by
  intro m
  induction m with
  | nil => rfl
  | cons e rest ih =>
    obtain ⟨k1, v1⟩ := e
    rw [List.filter_cons]
    by_cases h1 : k1 = k
    · have h2 : k1 ≠ name := fun h3 => h (h3 ▸ h1)
      simp only [h1, ne_eq, not_true_eq_false, decide_False, Bool.false_eq_true, if_false]
      rw [ih]
      have h4 : k ≠ name := fun h5 => h h5.symm
      simp [GoMap.get, h4]
    · simp only [h1, ne_eq, not_false_eq_true, decide_True, if_true]
      simp only [GoMap.get]
      rw [ih]

theorem GoMap.get_set_other {α : Type} (m : GoMap α) (k name : String) (v : α)
    (h : name ≠ k) : (m.set k v).get name = m.get name := by
  have h1 : k ≠ name := fun h2 => h h2.symm
  simp only [GoMap.set, GoMap.get, h1, if_false]
  exact GoMap.get_filter_ne k name h m

/-- The id of a method is 4 bytes long when `Keccak256` returns 32 bytes. -/
theorem Mgclod.Id_length {Ty Val Dst : Type} (deps : Deps Ty Val Dst)
    (hk : ∀ b, (deps.Keccak256 b).length = 32) (m : Mgclod Ty) :
    (m.Id deps).length = 4 := by
  simp [Mgclod.Id, hk]

theorem exampleKeccak256_length (b : Bytes) : (exampleKeccak256 b).length = 32 := by
  simp [exampleKeccak256]

/-- C6 as stated fails: the empty name is a key of `exampleABI.Mgclods` and packing no
arguments for that method succeeds, yet `Pack` with the empty name takes the constructor
path: it packs with the constructor's one-argument `Inputs`, which fails on no arguments,
instead of returning the 4-byte id of the method. -/
theorem pack_empty_name_counterexample :
    exampleABI.Mgclods.get "" = some exampleNameless ∧
    exampleDeps.Pack exampleNameless.Inputs [] = .ok [] ∧
    ABI.Pack exampleDeps exampleABI "" [] = .error (.other "argument count mismatch") ∧
    ABI.Pack exampleDeps exampleABI "" [] ≠ .ok (exampleNameless.Id exampleDeps ++ []) := by
  have h1 : ABI.Pack exampleDeps exampleABI "" [] = .error (.other "argument count mismatch") :=
    by rfl
  refine ⟨by rfl, by rfl, h1, ?_⟩
  intro h
  rw [h1] at h
  exact Except.noConfusion h

/-- C6, amended. With `Keccak256` returning 32 bytes: if `name` is a non-empty key of
`abi.Mgclods` and packing the arguments succeeds, `Pack` returns the 4-byte id of the method
followed by exactly the packed arguments; if `name` is empty it returns exactly what packing
with the constructor's `Inputs` returns; and it returns an error exactly when `name` is
non-empty and absent from `abi.Mgclods`, or the packing it delegates to fails. -/
theorem pack_spec {Ty Val Dst : Type} (deps : Deps Ty Val Dst) (abi : ABI Ty) (name : String)
    (args : List Val) (hk : ∀ b, (deps.Keccak256 b).length = 32) :
    (∀ m packed, name ≠ "" → abi.Mgclods.get name = some m →
        deps.Pack m.Inputs args = .ok packed →
        ABI.Pack deps abi name args = .ok (m.Id deps ++ packed) ∧
        (m.Id deps).length = 4 ∧
        (m.Id deps ++ packed).length = 4 + packed.length) ∧
    (name = "" → ABI.Pack deps abi name args = deps.Pack abi.Constructor.Inputs args) ∧
    ((∃ err, ABI.Pack deps abi name args = .error err) ↔
      ((name ≠ "" ∧ abi.Mgclods.get name = none) ∨
       (name = "" ∧ ∃ err, deps.Pack abi.Constructor.Inputs args = .error err) ∨
       (name ≠ "" ∧ ∃ m err, abi.Mgclods.get name = some m ∧
          deps.Pack m.Inputs args = .error err))) := by
  refine ⟨?_, ?_, ?_⟩
  · intro m packed hn hm hp
    have hl := Mgclod.Id_length deps hk m
    refine ⟨?_, hl, ?_⟩
    · simp [ABI.Pack, hn, hm, hp]
    · simp [hl]
  · intro hn
    simp only [ABI.Pack, hn, if_true]
    cases deps.Pack abi.Constructor.Inputs args <;> rfl
  · by_cases hn : name = ""
    · simp only [ABI.Pack, hn, if_true]
      cases hp : deps.Pack abi.Constructor.Inputs args <;> simp
    · simp only [ABI.Pack, hn, if_false]
      cases hm : abi.Mgclods.get name with
      | none => simp [hn]
      | some m =>
        cases hp : deps.Pack m.Inputs args <;> simp [hn, hp]

/-- C6, amended, at `exampleABI`: the method `foo` with the arguments 1 and 2, and the
constructor with the argument 7. -/
theorem pack_spec_witness :
    (∀ b, (exampleDeps.Keccak256 b).length = 32) ∧
    ABI.Pack exampleDeps exampleABI "foo" [1, 2] =
      .ok (exampleFoo.Id exampleDeps ++
        (List.replicate 31 0 ++ [1] ++ (List.replicate 31 0 ++ [2]))) ∧
    (exampleFoo.Id exampleDeps ++
        (List.replicate 31 0 ++ [1] ++ (List.replicate 31 0 ++ [2]))).length = 4 + 64 ∧
    ABI.Pack exampleDeps exampleABI "" [7] =
      exampleDeps.Pack exampleABI.Constructor.Inputs [7] :=
  ⟨exampleKeccak256_length,
    ((pack_spec exampleDeps exampleABI "foo" [1, 2] exampleKeccak256_length).1 exampleFoo
      (List.replicate 31 0 ++ [1] ++ (List.replicate 31 0 ++ [2]))
      (by decide) (by rfl) (by rfl)).1,
    ((pack_spec exampleDeps exampleABI "foo" [1, 2] exampleKeccak256_length).1 exampleFoo
      (List.replicate 31 0 ++ [1] ++ (List.replicate 31 0 ++ [2]))
      (by decide) (by rfl) (by rfl)).2.2,
    (pack_spec exampleDeps exampleABI "" [7] exampleKeccak256_length).2.1 rfl⟩

/-- C7. `Unpack` returns an error and leaves the destination alone, whatever
`Arguments.Unpack` would do, when the output is empty (for every name), when `name` is a
method and the length of the output is not a multiple of 32, and when `name` is neither a
method nor an event. When `name` is a method (an event of that name or not) and the length
is a multiple of 32, it is the unpacking with the method's `Outputs`; when `name` is an event
only, it is the unpacking with the event's `Inputs`, whatever the length. -/
theorem unpack_spec {Ty Val Dst : Type} (deps : Deps Ty Val Dst) (abi : ABI Ty) (v : Dst)
    (name : String) (output : Bytes) :
    (output = [] → ABI.Unpack deps abi v name output = (v, some .emptyOutput)) ∧
    (∀ m, output ≠ [] → abi.Mgclods.get name = some m → output.length % 32 ≠ 0 →
      ABI.Unpack deps abi v name output = (v, some (.improperlyFormatted output))) ∧
    (output ≠ [] → abi.Mgclods.get name = none → abi.Events.get name = none →
      ABI.Unpack deps abi v name output = (v, some .couldNotLocate)) ∧
    (∀ m, output ≠ [] → abi.Mgclods.get name = some m → output.length % 32 = 0 →
      ABI.Unpack deps abi v name output = deps.Unpack m.Outputs v output) ∧
    (∀ e, output ≠ [] → abi.Mgclods.get name = none → abi.Events.get name = some e →
      ABI.Unpack deps abi v name output = deps.Unpack e.Inputs v output) := by
  refine ⟨?_, ?_, ?_, ?_, ?_⟩
  · intro h
    simp [ABI.Unpack, h]
  · intro m h hm hl
    simp [ABI.Unpack, h, hm, hl]
  · intro h hm he
    simp [ABI.Unpack, h, hm, he]
  · intro m h hm hl
    simp [ABI.Unpack, h, hm, hl]
  · intro e h hm he
    simp [ABI.Unpack, h, hm, he]

/-- C7 at `exampleABI`: an empty output, a 3-byte output for the method `foo`, a 3-byte
output for an unknown name, a 3-byte output for the event `Sent`, and a 32-byte output for
the method `foo`. -/
theorem unpack_spec_witness :
    ABI.Unpack exampleDeps exampleABI [9] "foo" [] = ([9], some .emptyOutput) ∧
    ABI.Unpack exampleDeps exampleABI [9] "foo" [1, 2, 3] =
      ([9], some (.improperlyFormatted [1, 2, 3])) ∧
    ABI.Unpack exampleDeps exampleABI [9] "bar" [1, 2, 3] = ([9], some .couldNotLocate) ∧
    ABI.Unpack exampleDeps exampleABI [9] "foo" (List.replicate 32 1) =
      exampleDeps.Unpack exampleFoo.Outputs [9] (List.replicate 32 1) ∧
    ABI.Unpack exampleDeps exampleABI [9] "Sent" [1, 2, 3] =
      exampleDeps.Unpack exampleSent.Inputs [9] [1, 2, 3] :=
  ⟨(unpack_spec exampleDeps exampleABI [9] "foo" []).1 rfl,
    (unpack_spec exampleDeps exampleABI [9] "foo" [1, 2, 3]).2.1 exampleFoo
      (by simp) (by rfl) (by decide),
    (unpack_spec exampleDeps exampleABI [9] "bar" [1, 2, 3]).2.2.1
      (by simp) (by rfl) (by rfl),
    (unpack_spec exampleDeps exampleABI [9] "foo" (List.replicate 32 1)).2.2.2.1 exampleFoo
      (by simp) (by rfl) (by decide),
    (unpack_spec exampleDeps exampleABI [9] "Sent" [1, 2, 3]).2.2.2.2 exampleSent
      (by simp) (by rfl) (by rfl)⟩

theorem MgclodById.loop_some {Ty Val Dst : Type} (deps : Deps Ty Val Dst) (sigdata : Bytes) :
    ∀ (ms : GoMap (Mgclod Ty)) (m : Mgclod Ty), MgclodById.loop deps sigdata ms = some m →
      m.Id deps = sigdata.take 4 ∧ ∃ k, (k, m) ∈ ms := by
  intro ms
  induction ms with
  | nil => intro m h; simp [MgclodById.loop] at h
  | cons e rest ih =>
    obtain ⟨k1, m1⟩ := e
    intro m h
    by_cases h1 : m1.Id deps = sigdata.take 4
    · simp only [MgclodById.loop, h1, if_true, Option.some.injEq] at h
      subst h
      exact ⟨h1, k1, List.mem_cons_self _ _⟩
    · simp only [MgclodById.loop, h1, if_false] at h
      obtain ⟨h2, k, h3⟩ := ih m h
      exact ⟨h2, k, List.mem_cons_of_mem _ h3⟩

theorem MgclodById.loop_none {Ty Val Dst : Type} (deps : Deps Ty Val Dst) (sigdata : Bytes) :
    ∀ (ms : GoMap (Mgclod Ty)), MgclodById.loop deps sigdata ms = none ↔
      ∀ k m, (k, m) ∈ ms → m.Id deps ≠ sigdata.take 4 := by
  intro ms
  induction ms with
  | nil => simp [MgclodById.loop]
  | cons e rest ih =>
    obtain ⟨k1, m1⟩ := e
    by_cases h1 : m1.Id deps = sigdata.take 4
    · simp only [MgclodById.loop, h1, if_true]
      constructor
      · intro h; cases h
      · intro h
        exact absurd h1 (h k1 m1 (List.mem_cons_self _ _))
    · simp only [MgclodById.loop, h1, if_false, ih]
      constructor
      · intro h k m hm
        rcases List.mem_cons.mp hm with h2 | h2
        · cases h2
          exact h1
        · exact h k m h2
      · intro h k m hm
        exact h k m (List.mem_cons_of_mem _ hm)

theorem MgclodById.loop_congr {Ty Val Dst : Type} (deps : Deps Ty Val Dst)
    (sigdata other : Bytes) (h : sigdata.take 4 = other.take 4) :
    ∀ (ms : GoMap (Mgclod Ty)),
      MgclodById.loop deps sigdata ms = MgclodById.loop deps other ms := by
  intro ms
  induction ms with
  | nil => rfl
  | cons e rest ih =>
    obtain ⟨k1, m1⟩ := e
    simp only [MgclodById.loop, h, ih]

/-- C8. `MgclodById` on fewer than 4 bytes returns an error. On at least 4 bytes: if some
method of `abi.Mgclods` has the first 4 bytes as its id, it returns a method of
`abi.Mgclods` with that id and no error; if none has, it returns an error; and two inputs
with the same first 4 bytes give the same result. -/
theorem mgclodById_spec {Ty Val Dst : Type} (deps : Deps Ty Val Dst) (abi : ABI Ty)
    (sigdata : Bytes) :
    (sigdata.length < 4 →
      ABI.MgclodById deps abi sigdata = .error (.dataTooShort sigdata.length)) ∧
    (4 ≤ sigdata.length → (∃ k m, (k, m) ∈ abi.Mgclods ∧ m.Id deps = sigdata.take 4) →
      ∃ m, ABI.MgclodById deps abi sigdata = .ok m ∧ m.Id deps = sigdata.take 4 ∧
        ∃ k, (k, m) ∈ abi.Mgclods) ∧
    (4 ≤ sigdata.length → (∀ k m, (k, m) ∈ abi.Mgclods → m.Id deps ≠ sigdata.take 4) →
      ABI.MgclodById deps abi sigdata = .error (.noMgclodWithId (sigdata.take 4))) ∧
    (∀ other : Bytes, 4 ≤ sigdata.length → 4 ≤ other.length →
      sigdata.take 4 = other.take 4 →
      ABI.MgclodById deps abi sigdata = ABI.MgclodById deps abi other) := by
  refine ⟨?_, ?_, ?_, ?_⟩
  · intro h
    simp [ABI.MgclodById, h]
  · intro h hex
    have hl : ¬ sigdata.length < 4 := by omega
    cases hloop : MgclodById.loop deps sigdata abi.Mgclods with
    | none =>
      obtain ⟨k, m, hm, hid⟩ := hex
      exact absurd hid ((MgclodById.loop_none deps sigdata abi.Mgclods).mp hloop k m hm)
    | some m =>
      obtain ⟨h1, h2⟩ := MgclodById.loop_some deps sigdata abi.Mgclods m hloop
      exact ⟨m, by simp [ABI.MgclodById, hl, hloop], h1, h2⟩
  · intro h hall
    have hl : ¬ sigdata.length < 4 := by omega
    have hloop := (MgclodById.loop_none deps sigdata abi.Mgclods).mpr hall
    simp [ABI.MgclodById, hl, hloop]
  · intro other h1 h2 h3
    have hl1 : ¬ sigdata.length < 4 := by omega
    have hl2 : ¬ other.length < 4 := by omega
    simp only [ABI.MgclodById, hl1, hl2, if_false,
      MgclodById.loop_congr deps sigdata other h3 abi.Mgclods, h3]

theorem exampleFoo_Id : exampleFoo.Id exampleDeps = [102, 111, 111, 40] := by
  decide

theorem exampleNameless_Id : exampleNameless.Id exampleDeps = [40, 41, 0, 0] := by
  decide

/-- C8 at `exampleABI`: three bytes, the id of `foo` followed by two more bytes, and four
bytes that are the id of no method. -/
theorem mgclodById_spec_witness :
    ABI.MgclodById exampleDeps exampleABI [1, 2, 3] = .error (.dataTooShort 3) ∧
    (∃ m, ABI.MgclodById exampleDeps exampleABI [102, 111, 111, 40, 5, 6] = .ok m ∧
      m.Id exampleDeps = [102, 111, 111, 40] ∧ ∃ k, (k, m) ∈ exampleABI.Mgclods) ∧
    ABI.MgclodById exampleDeps exampleABI [1, 2, 3, 4] =
      .error (.noMgclodWithId [1, 2, 3, 4]) ∧
    ABI.MgclodById exampleDeps exampleABI [102, 111, 111, 40, 5, 6] =
      ABI.MgclodById exampleDeps exampleABI [102, 111, 111, 40] :=
  ⟨(mgclodById_spec exampleDeps exampleABI [1, 2, 3]).1 (by decide),
    (mgclodById_spec exampleDeps exampleABI [102, 111, 111, 40, 5, 6]).2.1 (by decide)
      ⟨"foo", exampleFoo, by simp [exampleABI], exampleFoo_Id⟩,
    (mgclodById_spec exampleDeps exampleABI [1, 2, 3, 4]).2.2.1 (by decide) (by
      intro k m hm
      simp only [exampleABI, List.mem_cons, Prod.mk.injEq, List.mem_singleton,
        List.not_mem_nil, or_false] at hm
      rcases hm with ⟨_, rfl⟩ | ⟨_, rfl⟩
      · rw [exampleFoo_Id]; decide
      · rw [exampleNameless_Id]; decide),
    (mgclodById_spec exampleDeps exampleABI [102, 111, 111, 40, 5, 6]).2.2.2
      [102, 111, 111, 40] (by decide) (by decide) (by decide)⟩

theorem intercalate_go_data (sep : String) :
    ∀ (rest : List String) (acc : String),
      (String.intercalate.go acc sep rest).data =
        acc.data ++ rest.flatMap (fun a => sep.data ++ a.data) := by
  intro rest
  induction rest with
  | nil => intro acc; simp [String.intercalate.go]
  | cons a rest ih =>
    intro acc
    simp [String.intercalate.go, ih, String.data_append, List.append_assoc]

theorem commaJoined_cons (t : List Char) :
    ∀ rest : List (List Char),
      commaJoined (t :: rest) = t ++ rest.flatMap (fun a => [','] ++ a) := by
  intro rest
  induction rest generalizing t with
  | nil => simp [commaJoined]
  | cons u rest ih => simp [commaJoined, ih u]

theorem intercalate_data (types : List String) :
    (",".intercalate types).data = commaJoined (types.map String.data) := by
  cases types with
  | nil => rfl
  | cons t rest =>
    simp only [String.intercalate, intercalate_go_data, List.map_cons, commaJoined_cons]
    congr 1
    induction rest with
    | nil => rfl
    | cons u rest ih =>
      simp only [List.flatMap_cons, List.map_cons, ih]

/-- C9. The signature of a method is its name, an opening parenthesis, the type strings of
its inputs in order joined by commas, and a closing parenthesis; a method with the same name
and the same input types has the same signature, whatever its argument names, `Outputs` and
`Const`; the id is the first 4 bytes of the Keccak256 hash of the signature, and is 4 bytes
long as `Keccak256` returns 32 bytes. -/
theorem sig_spec {Ty Val Dst : Type} (deps : Deps Ty Val Dst) (m : Mgclod Ty)
    (hk : ∀ b, (deps.Keccak256 b).length = 32) :
    (m.Sig deps).data =
      signatureChars m.Name.data (m.Inputs.map (fun a => (deps.typeString a.Typ).data)) ∧
    (∀ m2 : Mgclod Ty, m2.Name = m.Name →
      m2.Inputs.map (fun a => a.Typ) = m.Inputs.map (fun a => a.Typ) →
      m2.Sig deps = m.Sig deps ∧ m2.Id deps = m.Id deps) ∧
    m.Id deps = (deps.Keccak256 (stringBytes (m.Sig deps))).take 4 ∧
    (m.Id deps).length = 4 := by
  have hsig : ∀ m2 : Mgclod Ty, m2.Name = m.Name →
      m2.Inputs.map (fun a => a.Typ) = m.Inputs.map (fun a => a.Typ) →
      m2.Sig deps = m.Sig deps := by
    intro m2 hn hi
    have h1 : ∀ l : Arguments Ty, l.map (fun input => deps.typeString input.Typ) =
        (l.map (fun a => a.Typ)).map deps.typeString := by
      intro l
      simp [List.map_map, Function.comp_def]
    simp only [Mgclod.Sig, hn, h1, hi]
  refine ⟨?_, ?_, rfl, Mgclod.Id_length deps hk m⟩
  · simp only [Mgclod.Sig, signatureChars, String.data_append, intercalate_data,
      List.map_map, Function.comp_def]
    simp [List.append_assoc]
  · intro m2 hn hi
    have h2 := hsig m2 hn hi
    exact ⟨h2, by simp only [Mgclod.Id, h2]⟩

/-- C9 at `function foo(uint32 a, int b)`, whose second type has the canonical string
`int256`: the signature is `foo(uint32,int256)`, also with other argument names, outputs and
constness. -/
theorem sig_spec_witness :
    (∀ b, (exampleDeps.Keccak256 b).length = 32) ∧
    exampleFoo.Sig exampleDeps = "foo(uint32,int256)" ∧
    (exampleFoo.Sig exampleDeps).data =
      signatureChars "foo".data ["uint32".data, "int256".data] ∧
    Mgclod.Sig exampleDeps
      { Name := "foo", Const := true,
        Inputs := [⟨"x", "uint32", true⟩, ⟨"", "int256", false⟩],
        Outputs := [⟨"r", "bool", false⟩] } = exampleFoo.Sig exampleDeps ∧
    (exampleFoo.Id exampleDeps).length = 4 :=
  ⟨exampleKeccak256_length, by decide,
    (sig_spec exampleDeps exampleFoo exampleKeccak256_length).1,
    ((sig_spec exampleDeps exampleFoo exampleKeccak256_length).2.1 _ rfl rfl).1,
    (sig_spec exampleDeps exampleFoo exampleKeccak256_length).2.2.2⟩

/-- C10. When the JSON decodes, `UnmarshalJSON` starts from empty `Mgclods` and `Events` and
handles the entries in order, each by its type: an entry of empty type is handled exactly as
the same entry of type `function`; a `function` entry is registered in `Mgclods` under its
name with its `Name`, `Constant`, `Inputs` and `Outputs`, nothing else changing; a
`constructor` entry sets `Constructor` to a method with only the entry's `Inputs`; an
`event` entry is registered in `Events` under its name with its `Name`, `Anonymous` and
`Inputs`, nothing else changing; an entry of any other type changes nothing. -/
theorem unmarshalJSON_spec {Ty Val Dst : Type} (deps : Deps Ty Val Dst) (abi cur : ABI Ty)
    (data : Bytes) (fields : List (Field Ty)) (field : Field Ty)
    (hd : deps.jsonUnmarshal data = .ok fields) :
    ABI.UnmarshalJSON deps abi data =
      (fields.foldl ABI.addField { abi with Mgclods := [], Events := [] }, none) ∧
    (field.Typ = "" → cur.addField field = cur.addField { field with Typ := "function" }) ∧
    (field.Typ = "function" →
      (cur.addField field).Mgclods.get field.Name =
        some { Name := field.Name, Const := field.Constant, Inputs := field.Inputs,
               Outputs := field.Outputs } ∧
      (∀ name, name ≠ field.Name →
        (cur.addField field).Mgclods.get name = cur.Mgclods.get name) ∧
      (cur.addField field).Constructor = cur.Constructor ∧
      (cur.addField field).Events = cur.Events) ∧
    (field.Typ = "constructor" →
      cur.addField field =
        { cur with Constructor :=
            { Name := "", Const := false, Inputs := field.Inputs, Outputs := [] } }) ∧
    (field.Typ = "event" →
      (cur.addField field).Events.get field.Name =
        some { Name := field.Name, Anonymous := field.Anonymous, Inputs := field.Inputs } ∧
      (∀ name, name ≠ field.Name →
        (cur.addField field).Events.get name = cur.Events.get name) ∧
      (cur.addField field).Constructor = cur.Constructor ∧
      (cur.addField field).Mgclods = cur.Mgclods) ∧
    (field.Typ ≠ "" → field.Typ ≠ "function" → field.Typ ≠ "constructor" →
      field.Typ ≠ "event" → cur.addField field = cur) := by
  refine ⟨?_, ?_, ?_, ?_, ?_, ?_⟩
  · simp [ABI.UnmarshalJSON, hd]
  · intro h
    simp [ABI.addField, h]
  · intro h
    have h1 : ¬ field.Typ = "constructor" := by rw [h]; decide
    simp only [ABI.addField, h1, h, if_false, true_or, if_true]
    exact ⟨GoMap.get_set_self _ _ _, fun name hn => GoMap.get_set_other _ _ _ _ hn, rfl, rfl⟩
  · intro h
    simp [ABI.addField, h]
  · intro h
    have h1 : ¬ field.Typ = "constructor" := by rw [h]; decide
    have h2 : ¬ (field.Typ = "function" ∨ field.Typ = "") := by rw [h]; decide
    simp only [ABI.addField, h1, h2, h, if_false, if_true]
    exact ⟨GoMap.get_set_self _ _ _, fun name hn => GoMap.get_set_other _ _ _ _ hn, rfl, rfl⟩
  · intro h1 h2 h3 h4
    simp [ABI.addField, h1, h2, h3, h4]

/-- C10 at `exampleFields`, decoded over `exampleABI`: the entry without a type becomes the
method `foo`, the constructor keeps only its inputs, the event is registered, the fallback
entry changes nothing, and the methods and events `exampleABI` had are gone. -/
theorem unmarshalJSON_spec_witness :
    exampleDeps.jsonUnmarshal [] = .ok exampleFields ∧
    ABI.UnmarshalJSON exampleDeps exampleABI [] =
      ({ Constructor :=
           { Name := "", Const := false, Inputs := [⟨"x", "uint32", false⟩], Outputs := [] }
         Mgclods := [("foo", exampleFoo)]
         Events := [("Sent", exampleSent)] }, none) ∧
    ABI.UnmarshalJSON exampleDeps exampleABI [] =
      (exampleFields.foldl ABI.addField { exampleABI with Mgclods := [], Events := [] },
        none) ∧
    exampleABI.addField exampleEntry =
      exampleABI.addField { exampleEntry with Typ := "function" } :=
  ⟨rfl, by decide,
    (unmarshalJSON_spec exampleDeps exampleABI exampleABI [] exampleFields
      exampleEntry rfl).1,
    (unmarshalJSON_spec exampleDeps exampleABI exampleABI [] exampleFields
      exampleEntry rfl).2.1 rfl⟩

end abi

/-! ## The signing methods `none` and HMAC -/

namespace jwt

/-- C11. The `none` signing method: `Verify` returns nil if and only if the key has the type
`unsafeNoneMagicConstant` and the signature is the empty string, whatever the signing
string; `Sign` returns the empty signature with a nil error if and only if the key has that
type, and the empty signature with `NoneSignatureTypeDisallowedError` otherwise; `Verify`
too returns that error for a key of another type. -/
theorem none_only_with_magic_key (signingString signature : String) (key : Key) :
    (signingMgclodNone.Verify signingString signature key = none ↔
      ((∃ value, key = .noneMagic value) ∧ signature = "")) ∧
    (signingMgclodNone.Sign signingString key = ("", none) ↔
      ∃ value, key = .noneMagic value) ∧
    ((¬ ∃ value, key = .noneMagic value) →
      signingMgclodNone.Sign signingString key = ("", some NoneSignatureTypeDisallowedError) ∧
      signingMgclodNone.Verify signingString signature key =
        some NoneSignatureTypeDisallowedError) := by
  cases key <;> simp [signingMgclodNone.Verify, signingMgclodNone.Sign]

/-- C11 at the magic constant, at a byte key and at the nil key. -/
theorem none_only_with_magic_key_witness :
    signingMgclodNone.Verify "header.claims" "" UnsafeAllowNoneSignatureType = none ∧
    signingMgclodNone.Sign "header.claims" UnsafeAllowNoneSignatureType = ("", none) ∧
    signingMgclodNone.Verify "header.claims" "x" UnsafeAllowNoneSignatureType =
      some .noneNonEmptySignature ∧
    signingMgclodNone.Sign "header.claims" (.bytes [1, 2]) =
      ("", some NoneSignatureTypeDisallowedError) ∧
    signingMgclodNone.Verify "header.claims" "" Key.nil =
      some NoneSignatureTypeDisallowedError :=
  ⟨(none_only_with_magic_key "header.claims" "" UnsafeAllowNoneSignatureType).1.mpr
      ⟨⟨_, rfl⟩, rfl⟩,
    (none_only_with_magic_key "header.claims" "" UnsafeAllowNoneSignatureType).2.1.mpr
      ⟨_, rfl⟩,
    by decide,
    ((none_only_with_magic_key "header.claims" "" (.bytes [1, 2])).2.2
      (by rintro ⟨value, h⟩; cases h)).1,
    ((none_only_with_magic_key "header.claims" "" Key.nil).2.2
      (by rintro ⟨value, h⟩; cases h)).2⟩

/-- C12. For an HMAC signing method whose hash is available, a key of type `[]byte` and a
signing string: `Sign` returns the encoded keyed hash with a nil error; if `DecodeSegment`
gives that keyed hash back from its encoding, `Verify` of the signature `Sign` returned is
nil; and `Verify` returns `ErrSignatureInvalid` for every signature that decodes to bytes
other than the keyed hash. -/
theorem hmac_sign_verify (deps : Deps) (m : SigningMgclodHMAC) (signingString : String)
    (keyBytes : Bytes) (ha : deps.Available m.Hash = true) :
    m.Sign deps signingString (.bytes keyBytes) =
      (deps.EncodeSegment (deps.hmacSum m.Hash keyBytes (stringBytes signingString)),
        none) ∧
    (deps.DecodeSegment
        (deps.EncodeSegment (deps.hmacSum m.Hash keyBytes (stringBytes signingString))) =
        .ok (deps.hmacSum m.Hash keyBytes (stringBytes signingString)) →
      m.Verify deps signingString (m.Sign deps signingString (.bytes keyBytes)).1
        (.bytes keyBytes) = none) ∧
    (∀ (signature : String) (sig : Bytes), deps.DecodeSegment signature = .ok sig →
      sig ≠ deps.hmacSum m.Hash keyBytes (stringBytes signingString) →
      m.Verify deps signingString signature (.bytes keyBytes) =
        some .ErrSignatureInvalid) := by
  refine ⟨?_, ?_, ?_⟩
  · simp [SigningMgclodHMAC.Sign, ha]
  · intro hd
    simp [SigningMgclodHMAC.Sign, SigningMgclodHMAC.Verify, ha, hd]
  · intro signature sig hd hne
    simp [SigningMgclodHMAC.Verify, ha, hd, hne]

/-- C12 at `SigningMgclodHS256` over `exampleDeps`, with the key 1, 2 and the signing string
`ab`: the signature `Sign` returns verifies, and the signature that decodes to the bytes
1, 2, 97, 99 does not. -/
theorem hmac_sign_verify_witness :
    exampleDeps.Available SigningMgclodHS256.Hash = true ∧
    SigningMgclodHS256.Sign exampleDeps "ab" (.bytes [1, 2]) =
      (exampleDeps.EncodeSegment [1, 2, 97, 98], none) ∧
    SigningMgclodHS256.Verify exampleDeps "ab"
      (SigningMgclodHS256.Sign exampleDeps "ab" (.bytes [1, 2])).1 (.bytes [1, 2]) = none ∧
    SigningMgclodHS256.Verify exampleDeps "ab" (exampleDeps.EncodeSegment [1, 2, 97, 99])
      (.bytes [1, 2]) = some .ErrSignatureInvalid :=
  ⟨by decide,
    (hmac_sign_verify exampleDeps SigningMgclodHS256 "ab" [1, 2] (by decide)).1,
    (hmac_sign_verify exampleDeps SigningMgclodHS256 "ab" [1, 2] (by decide)).2.1
      (by rfl),
    (hmac_sign_verify exampleDeps SigningMgclodHS256 "ab" [1, 2] (by decide)).2.2
      (exampleDeps.EncodeSegment [1, 2, 97, 99]) [1, 2, 97, 99] (by rfl) (by decide)⟩

end jwt

/-! ## The retrieve manager -/

namespace RetrieveManager

theorem classify_success {R : Type} (verify : R → Bool) (peer : PeerID) (reply : Reply R)
    (value : R) (h : classify verify peer reply = .Success value) :
    reply = .response value ∧ verify value = true := by
  cases reply with
  | timeout => simp [classify] at h
  | response v =>
    by_cases hv : verify v = true
    · simp only [classify, hv, if_true, Outcome.Success.injEq] at h
      subst h
      exact ⟨rfl, hv⟩
    · simp [classify, hv] at h

theorem classify_fault {R : Type} (verify : R → Bool) (peer : PeerID) (reply : Reply R)
    (h : ∀ value, reply = .response value → verify value = false) :
    ∀ value, classify verify peer reply ≠ .Success value := by
  intro value hc
  obtain ⟨h1, h2⟩ := classify_success verify peer reply value hc
  rw [h value h1] at h2
  cases h2

/-- A verified response resolves the call at once, whatever retries are left. -/
theorem attempt_success {R : Type} (respond : PeerID → Reply R) (verify : R → Bool)
    (peer : PeerID) (rest penalized : List PeerID) (value : R)
    (hr : respond peer = .response value) (hv : verify value = true) (retriesLeft : Nat) :
    attempt respond verify retriesLeft (peer :: rest) penalized =
      { result := .ok value, penalized := penalized } := by
  cases retriesLeft <;> simp [attempt, classify, hr, hv]

/-- The loop on a peer whose reply is a fault: the peer is penalized, and the request goes
on to the other peers with one retry less, or fails when no retry is left. -/
theorem attempt_fault {R : Type} (respond : PeerID → Reply R) (verify : R → Bool)
    (peer : PeerID) (rest penalized : List PeerID)
    (h : ∀ value, respond peer = .response value → verify value = false) :
    attempt respond verify 0 (peer :: rest) penalized =
      { result := .error .noAvailablePeer, penalized := penalized ++ [peer] } ∧
    ∀ n, attempt respond verify (n + 1) (peer :: rest) penalized =
      attempt respond verify n (rest.filter (fun other => other ≠ peer))
        (penalized ++ [peer]) := by
  have hc := classify_fault verify peer (respond peer) h
  constructor
  · rw [attempt]
    split
    · next value heq => exact absurd heq (hc value)
    · rfl
  · intro n
    rw [attempt]
    split
    · next value heq => exact absurd heq (hc value)
    · rfl

/-- The loop on a first peer, by its reply. -/
theorem attempt_cons_cases {R : Type} (respond : PeerID → Reply R) (verify : R → Bool)
    (peer : PeerID) :
    (∃ value, respond peer = .response value ∧ verify value = true) ∨
    (∀ value, respond peer = .response value → verify value = false) := by
  cases hr : respond peer with
  | timeout => right; intro value h; cases h
  | response v =>
    by_cases hv : verify v = true
    · exact Or.inl ⟨v, rfl, hv⟩
    · right
      intro value h
      cases h
      simpa using hv

/-- Whatever the loop returns as a result passed verification and came from one of the
peers. -/
theorem attempt_verified {R : Type} (respond : PeerID → Reply R) (verify : R → Bool) :
    ∀ (retriesLeft : Nat) (peers penalized : List PeerID) (value : R),
      (attempt respond verify retriesLeft peers penalized).result = .ok value →
      verify value = true ∧ ∃ peer ∈ peers, respond peer = .response value := by
  intro retriesLeft
  induction retriesLeft with
  | zero =>
    intro peers penalized value h
    cases peers with
    | nil => simp [attempt] at h
    | cons peer rest =>
      rcases attempt_cons_cases respond verify peer with ⟨v, hr, hv⟩ | hf
      · rw [attempt_success respond verify peer rest penalized v hr hv] at h
        simp only [Except.ok.injEq] at h
        subst h
        exact ⟨hv, peer, List.mem_cons_self _ _, hr⟩
      · rw [(attempt_fault respond verify peer rest penalized hf).1] at h
        simp at h
  | succ n ih =>
    intro peers penalized value h
    cases peers with
    | nil => simp [attempt] at h
    | cons peer rest =>
      rcases attempt_cons_cases respond verify peer with ⟨v, hr, hv⟩ | hf
      · rw [attempt_success respond verify peer rest penalized v hr hv] at h
        simp only [Except.ok.injEq] at h
        subst h
        exact ⟨hv, peer, List.mem_cons_self _ _, hr⟩
      · rw [(attempt_fault respond verify peer rest penalized hf).2 n] at h
        obtain ⟨h1, p, hp, h2⟩ := ih _ _ value h
        exact ⟨h1, p, List.mem_cons_of_mem _ (List.mem_of_mem_filter hp), h2⟩

/-- The peers penalized before stay penalized. -/
theorem attempt_penalized_mono {R : Type} (respond : PeerID → Reply R) (verify : R → Bool) :
    ∀ (retriesLeft : Nat) (peers penalized : List PeerID) (p : PeerID), p ∈ penalized →
      p ∈ (attempt respond verify retriesLeft peers penalized).penalized := by
  intro retriesLeft
  induction retriesLeft with
  | zero =>
    intro peers penalized p hp
    cases peers with
    | nil => simpa [attempt] using hp
    | cons peer rest =>
      rcases attempt_cons_cases respond verify peer with ⟨v, hr, hv⟩ | hf
      · rw [attempt_success respond verify peer rest penalized v hr hv]
        exact hp
      · rw [(attempt_fault respond verify peer rest penalized hf).1]
        exact List.mem_append_left _ hp
  | succ n ih =>
    intro peers penalized p hp
    cases peers with
    | nil => simpa [attempt] using hp
    | cons peer rest =>
      rcases attempt_cons_cases respond verify peer with ⟨v, hr, hv⟩ | hf
      · rw [attempt_success respond verify peer rest penalized v hr hv]
        exact hp
      · rw [(attempt_fault respond verify peer rest penalized hf).2 n]
        exact ih _ _ p (List.mem_append_left _ hp)

/-- When every peer is at fault the loop ends in an error. -/
theorem attempt_all_faults {R : Type} (respond : PeerID → Reply R) (verify : R → Bool) :
    ∀ (retriesLeft : Nat) (peers penalized : List PeerID),
      (∀ peer ∈ peers, ∀ value, respond peer = .response value → verify value = false) →
      ∃ err, (attempt respond verify retriesLeft peers penalized).result = .error err := by
  intro retriesLeft
  induction retriesLeft with
  | zero =>
    intro peers penalized h
    cases peers with
    | nil => exact ⟨_, rfl⟩
    | cons peer rest =>
      rw [(attempt_fault respond verify peer rest penalized
        (h peer (List.mem_cons_self _ _))).1]
      exact ⟨_, rfl⟩
  | succ n ih =>
    intro peers penalized h
    cases peers with
    | nil => exact ⟨_, rfl⟩
    | cons peer rest =>
      rw [(attempt_fault respond verify peer rest penalized
        (h peer (List.mem_cons_self _ _))).2 n]
      exact ih _ _ (fun p hp =>
        h p (List.mem_cons_of_mem _ (List.mem_of_mem_filter hp)))

theorem filter_ne_of_not_mem (peer : PeerID) (rest : List PeerID) (h : peer ∉ rest) :
    rest.filter (fun other => other ≠ peer) = rest := by
  rw [List.filter_eq_self]
  intro a ha
  have : a ≠ peer := fun h1 => h (h1 ▸ ha)
  simpa using this

/-- With distinct peers of which the first `retriesLeft + 1` are at fault, exactly those are
penalized and the call fails: with "no available peer" when the retries are used up, with
the deadline when the peers run out before. -/
theorem attempt_faults_nodup {R : Type} (respond : PeerID → Reply R) (verify : R → Bool) :
    ∀ (retriesLeft : Nat) (peers penalized : List PeerID), peers.Nodup →
      (∀ peer ∈ peers.take (retriesLeft + 1), ∀ value,
        respond peer = .response value → verify value = false) →
      attempt respond verify retriesLeft peers penalized =
        { result := .error
            (if peers.length ≤ retriesLeft then .deadlineElapsed else .noAvailablePeer)
          penalized := penalized ++ peers.take (retriesLeft + 1) } := by
  intro retriesLeft
  induction retriesLeft with
  | zero =>
    intro peers penalized _ h
    cases peers with
    | nil => simp [attempt]
    | cons peer rest =>
      rw [(attempt_fault respond verify peer rest penalized
        (h peer (by simp))).1]
      simp
  | succ n ih =>
    intro peers penalized hnd h
    cases peers with
    | nil => simp [attempt]
    | cons peer rest =>
      have hnd2 := List.nodup_cons.mp hnd
      rw [(attempt_fault respond verify peer rest penalized (h peer (by simp))).2 n,
        filter_ne_of_not_mem peer rest hnd2.1,
        ih rest (penalized ++ [peer]) hnd2.2
          (fun p hp => h p (by simp only [List.take_succ_cons]; exact List.mem_cons_of_mem _ hp))]
      simp

/-- With distinct peers: after no more than `retriesLeft` peers at fault, a peer with a
verified response resolves the call, and exactly the peers at fault are penalized. -/
theorem attempt_faults_then_valid {R : Type} (respond : PeerID → Reply R)
    (verify : R → Bool) (good : PeerID) (tail : List PeerID) (value : R)
    (hr : respond good = .response value) (hv : verify value = true) :
    ∀ (bad : List PeerID) (retriesLeft : Nat) (penalized : List PeerID),
      (bad ++ good :: tail).Nodup →
      (∀ peer ∈ bad, ∀ v, respond peer = .response v → verify v = false) →
      bad.length ≤ retriesLeft →
      attempt respond verify retriesLeft (bad ++ good :: tail) penalized =
        { result := .ok value, penalized := penalized ++ bad } := by
  intro bad
  induction bad with
  | nil =>
    intro retriesLeft penalized _ _ _
    simpa using attempt_success respond verify good tail penalized value hr hv retriesLeft
  | cons peer bad ih =>
    intro retriesLeft penalized hnd hf hlen
    cases retriesLeft with
    | zero => simp at hlen
    | succ n =>
      have hnd2 : peer ∉ bad ++ good :: tail ∧ (bad ++ good :: tail).Nodup :=
        List.nodup_cons.mp hnd
      rw [List.cons_append,
        (attempt_fault respond verify peer _ penalized (hf peer (by simp))).2 n,
        filter_ne_of_not_mem peer _ hnd2.1,
        ih n (penalized ++ [peer]) hnd2.2
          (fun p hp => hf p (List.mem_cons_of_mem _ hp)) (by simpa using hlen)]
      simp

/-- The peers penalized before do not influence the loop: its result is the same, and they
come before the peers it penalizes. -/
theorem attempt_penalized_append {R : Type} (respond : PeerID → Reply R)
    (verify : R → Bool) :
    ∀ (retriesLeft : Nat) (peers penalized : List PeerID),
      attempt respond verify retriesLeft peers penalized =
        { result := (attempt respond verify retriesLeft peers []).result
          penalized := penalized ++ (attempt respond verify retriesLeft peers []).penalized } := by
  intro retriesLeft
  induction retriesLeft with
  | zero =>
    intro peers penalized
    cases peers with
    | nil => simp [attempt]
    | cons peer rest =>
      rcases attempt_cons_cases respond verify peer with ⟨v, hr, hv⟩ | hf
      · simp [attempt_success respond verify peer rest _ v hr hv]
      · simp [(attempt_fault respond verify peer rest _ hf).1]
  | succ n ih =>
    intro peers penalized
    cases peers with
    | nil => simp [attempt]
    | cons peer rest =>
      rcases attempt_cons_cases respond verify peer with ⟨v, hr, hv⟩ | hf
      · simp [attempt_success respond verify peer rest _ v hr hv]
      · rw [(attempt_fault respond verify peer rest penalized hf).2 n,
          (attempt_fault respond verify peer rest [] hf).2 n,
          ih _ (penalized ++ [peer]), ih _ ([] ++ [peer])]
        simp

/-- C13. `retrieve` never returns a result for which `verify` is false: a returned result
passed verification and is the response of one of the peers. A first peer whose response
fails verification (or who does not answer in time) is penalized and its response is not
returned: with no retry left the call fails, otherwise the call goes on as a call with one
retry less on the peers other than that one. When every peer is at fault the call fails; with
distinct peers of which the first `maxRetries + 1` are at fault the call fails having
penalized exactly those. -/
theorem retrieve_never_unverified {R : Type} (respond : PeerID → Reply R)
    (verify : R → Bool) (maxRetries : Nat) (peers : List PeerID) (peer : PeerID)
    (rest : List PeerID) :
    (∀ value, (retrieve respond verify maxRetries peers).result = .ok value →
      verify value = true ∧ ∃ p ∈ peers, respond p = .response value) ∧
    ((∀ value, respond peer = .response value → verify value = false) →
      retrieve respond verify 0 (peer :: rest) =
        { result := .error .noAvailablePeer, penalized := [peer] } ∧
      (retrieve respond verify (maxRetries + 1) (peer :: rest)).result =
        (retrieve respond verify maxRetries
          (rest.filter (fun other => other ≠ peer))).result ∧
      (retrieve respond verify (maxRetries + 1) (peer :: rest)).penalized =
        peer :: (retrieve respond verify maxRetries
          (rest.filter (fun other => other ≠ peer))).penalized ∧
      peer ∉ rest.filter (fun other => other ≠ peer)) ∧
    ((∀ p ∈ peers, ∀ value, respond p = .response value → verify value = false) →
      ∃ err, (retrieve respond verify maxRetries peers).result = .error err) ∧
    (peers.Nodup →
      (∀ p ∈ peers.take (maxRetries + 1), ∀ value,
        respond p = .response value → verify value = false) →
      retrieve respond verify maxRetries peers =
        { result := .error
            (if peers.length ≤ maxRetries then .deadlineElapsed else .noAvailablePeer)
          penalized := peers.take (maxRetries + 1) }) := by
  refine ⟨?_, ?_, ?_, ?_⟩
  · intro value h
    exact attempt_verified respond verify maxRetries peers [] value h
  · intro hf
    have h0 := (attempt_fault respond verify peer rest [] hf).1
    have h1 := (attempt_fault respond verify peer rest [] hf).2 maxRetries
    have h2 := attempt_penalized_append respond verify maxRetries
      (rest.filter (fun other => other ≠ peer)) ([] ++ [peer])
    refine ⟨by simpa [retrieve] using h0, ?_, ?_, by simp⟩
    · simp only [retrieve]
      rw [h1, h2]
    · simp only [retrieve]
      rw [h1, h2]
      simp
  · intro h
    exact attempt_all_faults respond verify maxRetries peers [] h
  · intro hnd h
    simpa [retrieve] using attempt_faults_nodup respond verify maxRetries peers [] hnd h

/-- The mock peers 1, 2 and 3 are at fault. -/
theorem mock_faults (peers : List PeerID) (h : ∀ p ∈ peers, p = 1 ∨ p = 2 ∨ p = 3) :
    ∀ p ∈ peers, ∀ value, mockRespond p = .response value → mockVerify value = false := by
  intro p hp value hr
  rcases h p hp with rfl | rfl | rfl
  · simp only [mockRespond] at hr
    cases hr
    rfl
  · simp only [mockRespond] at hr
    cases hr
    rfl
  · simp [mockRespond] at hr

/-- C13 at the mock peers, whose peers 1, 2 and 3 are at fault and whose peer 4 answers with
the verified value 42: with three retries the call returns 42 after penalizing 1, 2 and 3;
with two retries it fails after penalizing them; on the peers 1 and 2 alone it fails too. -/
theorem retrieve_never_unverified_witness :
    retrieve mockRespond mockVerify 3 [1, 2, 3, 4] =
      { result := .ok 42, penalized := [1, 2, 3] } ∧
    (mockVerify 42 = true ∧ ∃ p ∈ [1, 2, 3, 4], mockRespond p = .response 42) ∧
    retrieve mockRespond mockVerify 2 [1, 2, 3, 4] =
      { result := .error .noAvailablePeer, penalized := [1, 2, 3] } ∧
    (∃ err, (retrieve mockRespond mockVerify 7 [1, 2]).result = .error err) ∧
    (retrieve mockRespond mockVerify 3 [1, 2, 3, 4]).result =
      (retrieve mockRespond mockVerify 2 [2, 3, 4]).result :=
  ⟨by
      simpa [retrieve] using attempt_faults_then_valid mockRespond mockVerify 4 [] 42
        (by decide) (by decide) [1, 2, 3] 3 [] (by decide)
        (mock_faults [1, 2, 3] (by decide)) (by decide),
    (retrieve_never_unverified mockRespond mockVerify 3 [1, 2, 3, 4] 1 []).1 42 (by
      have h := attempt_faults_then_valid mockRespond mockVerify 4 [] 42 (by decide)
        (by decide) [1, 2, 3] 3 [] (by decide) (mock_faults [1, 2, 3] (by decide))
        (by decide)
      simp only [retrieve]
      rw [show ([1, 2, 3, 4] : List PeerID) = [1, 2, 3] ++ 4 :: [] from rfl, h]),
    by
      simpa using (retrieve_never_unverified mockRespond mockVerify 2 [1, 2, 3, 4] 1
        []).2.2.2 (by decide) (mock_faults _ (by decide)),
    (retrieve_never_unverified mockRespond mockVerify 7 [1, 2] 1 []).2.2.1
      (mock_faults _ (by decide)),
    ((retrieve_never_unverified mockRespond mockVerify 2 [1, 2, 3, 4] 1 [2, 3, 4]).2.1
      (mock_faults [1] (by decide) 1 (by decide))).2.1⟩

end RetrieveManager

/-! ## The header chain segment of the downloader -/

namespace Downloader

theorem validBatch_iff_chain (hash : Header → Nat) :
    ∀ (batch : List Header) (prev : Header),
      validBatch hash prev batch = true ↔
        List.Chain (fun a b => linked hash a b = true) prev batch := by
  intro batch
  induction batch with
  | nil => intro prev; simp [validBatch]
  | cons cur rest ih =>
    intro prev
    simp only [validBatch, Bool.and_eq_true, List.chain_cons, ih]

theorem getLast?_getD_cons (h a : Header) (t : List Header) :
    (h :: t).getLast?.getD a = t.getLast?.getD h := by
  cases t with
  | nil => rfl
  | cons b t =>
    rw [List.getLast?_cons_cons, List.getLast?_eq_getLast (b :: t) (by simp)]
    rfl

theorem chain_append_tip (hash : Header → Nat) (batch : List Header) :
    ∀ (headers : List Header) (a : Header),
      List.Chain (fun a b => linked hash a b = true) a headers →
      List.Chain (fun a b => linked hash a b = true) (headers.getLast?.getD a) batch →
      List.Chain (fun a b => linked hash a b = true) a (headers ++ batch) := by
  intro headers
  induction headers with
  | nil => intro a _ h; simpa using h
  | cons h t ih =>
    intro a h1 h2
    rw [List.chain_cons] at h1
    rw [getLast?_getD_cons] at h2
    rw [List.cons_append, List.chain_cons]
    exact ⟨h1.1, ih h h1.2 h2⟩

/-- The invariant of the segment: from the common ancestor on, every header is linked to
the one before it. -/
theorem deliver_chain (hash : Header → Nat) (s : Segment) (batch : PeerID × List Header)
    (h : List.Chain (fun a b => linked hash a b = true) s.ancestor s.headers) :
    List.Chain (fun a b => linked hash a b = true) (s.deliver hash batch).ancestor
      (s.deliver hash batch).headers := by
  by_cases hv : validBatch hash s.tip batch.2 = true
  · simp only [Segment.deliver, hv, if_true]
    exact chain_append_tip hash batch.2 s.headers s.ancestor h
      ((validBatch_iff_chain hash batch.2 s.tip).mp hv)
  · simpa [Segment.deliver, hv] using h

theorem assemble_chain (hash : Header → Nat) (batches : List (PeerID × List Header)) :
    ∀ s : Segment, List.Chain (fun a b => linked hash a b = true) s.ancestor s.headers →
      List.Chain (fun a b => linked hash a b = true) (s.assemble hash batches).ancestor
        (s.assemble hash batches).headers := by
  induction batches with
  | nil => intro s h; exact h
  | cons b rest ih =>
    intro s h
    exact ih (s.deliver hash b) (deliver_chain hash s b h)

theorem linked_iff (hash : Header → Nat) (prev cur : Header) :
    linked hash prev cur = true ↔
      cur.parentHash = hash prev ∧ cur.number = prev.number + 1 ∧ prev.td ≤ cur.td := by
  simp [linked, and_assoc]

/-- C14. Whatever batches arrive from whatever peers, the segment the downloader has
accepted is hash-linked and consecutively numbered: every header after the first has the
hash of the header before it as its parent hash and the next number (and a total difficulty
that is not smaller). -/
theorem accepted_segment_linked (hash : Header → Nat) (ancestor : Header)
    (batches : List (PeerID × List Header)) (i : Nat)
    (h : i + 1 < ((Segment.start ancestor).assemble hash batches).headers.length) :
    (((Segment.start ancestor).assemble hash batches).headers.get ⟨i + 1, h⟩).parentHash =
      hash (((Segment.start ancestor).assemble hash batches).headers.get
        ⟨i, Nat.lt_of_succ_lt h⟩) ∧
    (((Segment.start ancestor).assemble hash batches).headers.get ⟨i + 1, h⟩).number =
      (((Segment.start ancestor).assemble hash batches).headers.get
        ⟨i, Nat.lt_of_succ_lt h⟩).number + 1 ∧
    (((Segment.start ancestor).assemble hash batches).headers.get
        ⟨i, Nat.lt_of_succ_lt h⟩).td ≤
      (((Segment.start ancestor).assemble hash batches).headers.get ⟨i + 1, h⟩).td := by
  have h1 := assemble_chain hash batches (Segment.start ancestor) List.Chain.nil
  have h2 : List.Chain' (fun a b => linked hash a b = true)
      ((Segment.start ancestor).assemble hash batches).headers :=
    (List.Chain'.tail (l := _ :: _) h1)
  have h3 := List.chain'_iff_get.mp h2 i (by omega)
  exact (linked_iff hash _ _).mp h3

/-- C14 at the mock batches: the headers 11, 12 and 13 are accepted, the batch of peer 2 is
dropped, and header 13 is linked to header 12. -/
theorem accepted_segment_linked_witness :
    ((Segment.start mockAncestor).assemble mockHash mockBatches).headers.length = 3 ∧
    ((Segment.start mockAncestor).assemble mockHash mockBatches).dropped = [2] ∧
    ∃ h : 1 + 1 < ((Segment.start mockAncestor).assemble mockHash mockBatches).headers.length,
      (((Segment.start mockAncestor).assemble mockHash mockBatches).headers.get
          ⟨1 + 1, h⟩).parentHash =
        mockHash (((Segment.start mockAncestor).assemble mockHash mockBatches).headers.get
          ⟨1, Nat.lt_of_succ_lt h⟩) ∧
      (((Segment.start mockAncestor).assemble mockHash mockBatches).headers.get
          ⟨1 + 1, h⟩).number =
        (((Segment.start mockAncestor).assemble mockHash mockBatches).headers.get
          ⟨1, Nat.lt_of_succ_lt h⟩).number + 1 ∧
      (((Segment.start mockAncestor).assemble mockHash mockBatches).headers.get
          ⟨1, Nat.lt_of_succ_lt h⟩).td ≤
        (((Segment.start mockAncestor).assemble mockHash mockBatches).headers.get
          ⟨1 + 1, h⟩).td :=
  ⟨by decide, by decide, by decide,
    accepted_segment_linked mockHash mockAncestor mockBatches 1 (by decide)⟩

end Downloader

/-! ## The request distributor -/

namespace RequestDistributor

theorem takeOldest_none (p : Peer) :
    ∀ q : List Request, (∀ r ∈ q, p.canServe r.kind = false) → takeOldest p q = none := by
  intro q
  induction q with
  | nil => intro _; rfl
  | cons r rest ih =>
    intro h
    have h1 := h r (List.mem_cons_self _ _)
    have h2 := ih (fun x hx => h x (List.mem_cons_of_mem _ hx))
    simp [takeOldest, h1, h2]

theorem takeOldest_head (p : Peer) (r : Request) (rest : List Request)
    (h : p.canServe r.kind = true) : takeOldest p (r :: rest) = some (r, rest) := by
  simp [takeOldest, h]

/-- With nothing but requests of one kind queued, peers becoming idle one at a time: the
peers that can serve the kind take the queued requests in arrival order, the others stay
idle. -/
theorem peerAvailable_fold (kind : Kind) :
    ∀ (peers : List Peer) (d : Distributor), (∀ r ∈ d.queued, r.kind = kind) →
      (peers.foldl Distributor.peerAvailable d).inFlight =
        d.inFlight ++
          List.zip ((peers.filter (fun p => p.canServe kind)).map (fun p => p.id)) d.queued ∧
      (peers.foldl Distributor.peerAvailable d).queued =
        d.queued.drop (peers.filter (fun p => p.canServe kind)).length := by
  intro peers
  induction peers with
  | nil => intro d _; simp
  | cons p rest ih =>
    intro d hk
    obtain ⟨queued, idle, inFlight, timedOut⟩ := d
    simp only at hk
    by_cases hp : p.canServe kind = true
    · cases queued with
      | nil =>
        have h1 : Distributor.peerAvailable ⟨[], idle, inFlight, timedOut⟩ p =
            ⟨[], idle ++ [p], inFlight, timedOut⟩ := by
          simp [Distributor.peerAvailable, takeOldest]
        have h2 := ih ⟨[], idle ++ [p], inFlight, timedOut⟩ (by simp)
        simp only [List.foldl_cons, h1]
        simpa [hp] using h2
      | cons r q =>
        have hr : p.canServe r.kind = true := by
          rw [hk r (by simp)]
          exact hp
        have h1 : Distributor.peerAvailable ⟨r :: q, idle, inFlight, timedOut⟩ p =
            ⟨q, idle, inFlight ++ [(p.id, r)], timedOut⟩ := by
          simp [Distributor.peerAvailable, takeOldest_head p r q hr]
        have h2 := ih ⟨q, idle, inFlight ++ [(p.id, r)], timedOut⟩
          (fun x hx => hk x (by simp [hx]))
        simp only [List.foldl_cons, h1]
        simpa [hp] using h2
    · have hp2 : p.canServe kind = false := by simpa using hp
      have h1 : Distributor.peerAvailable ⟨queued, idle, inFlight, timedOut⟩ p =
          ⟨queued, idle ++ [p], inFlight, timedOut⟩ := by
        have h3 := takeOldest_none p queued (fun r hr => by rw [hk r hr]; exact hp2)
        simp [Distributor.peerAvailable, h3]
      have h2 := ih ⟨queued, idle ++ [p], inFlight, timedOut⟩ hk
      simp only [List.foldl_cons, h1]
      simpa [hp2] using h2

/-- While no peer is idle, queued requests wait in arrival order. -/
theorem queue_fold :
    ∀ (reqs : List Request) (d : Distributor), d.idle = [] →
      reqs.foldl Distributor.queue d = { d with queued := d.queued ++ reqs } := by
  intro reqs
  induction reqs with
  | nil => intro d _; simp
  | cons r rest ih =>
    intro d hd
    have h1 : d.queue r = { d with queued := d.queued ++ [r] } := by
      simp [Distributor.queue, hd]
    have h2 := ih { d with queued := d.queued ++ [r] } hd
    simp only [List.foldl_cons, h1]
    rw [h2]
    simp

theorem map_snd_zip_take {α β : Type} :
    ∀ (xs : List α) (ys : List β), (List.zip xs ys).map (fun e => e.2) = ys.take xs.length := by
  intro xs
  induction xs with
  | nil => intro ys; simp
  | cons x xs ih =>
    intro ys
    cases ys with
    | nil => simp
    | cons y ys => simp [ih ys]

/-- C15. Requests of one kind, queued one after the other while no peer is idle, wait in
arrival order. When peers that can serve the kind then become idle one at a time, the
requests are dispatched in arrival order: the assignments are the peers paired with the
requests, both in order, so that the i-th peer to become idle is assigned the i-th queued
request, and the requests not yet dispatched are still queued in arrival order. -/
theorem fifo_dispatch (kind : Kind) (reqs : List Request) (peers : List Peer)
    (hk : ∀ r ∈ reqs, r.kind = kind) (hp : ∀ p ∈ peers, p.canServe kind = true) :
    (reqs.foldl Distributor.queue Distributor.empty).queued = reqs ∧
    (peers.foldl Distributor.peerAvailable
        (reqs.foldl Distributor.queue Distributor.empty)).inFlight =
      List.zip (peers.map (fun p => p.id)) reqs ∧
    (peers.foldl Distributor.peerAvailable
        (reqs.foldl Distributor.queue Distributor.empty)).dispatched =
      reqs.take peers.length ∧
    (peers.foldl Distributor.peerAvailable
        (reqs.foldl Distributor.queue Distributor.empty)).queued =
      reqs.drop peers.length ∧
    ∀ (i : Nat) (hi : i < peers.length) (hr : i < reqs.length),
      (peers.foldl Distributor.peerAvailable
        (reqs.foldl Distributor.queue Distributor.empty)).inFlight.get? i =
        some ((peers.get ⟨i, hi⟩).id, reqs.get ⟨i, hr⟩) := by
  have hq : reqs.foldl Distributor.queue Distributor.empty =
      { Distributor.empty with queued := reqs } := by
    rw [queue_fold reqs Distributor.empty rfl]
    simp [Distributor.empty]
  have hf : peers.filter (fun p => p.canServe kind) = peers := by
    rw [List.filter_eq_self]
    exact hp
  have h := peerAvailable_fold kind peers { Distributor.empty with queued := reqs } hk
  rw [hf] at h
  have hin : (peers.foldl Distributor.peerAvailable
      (reqs.foldl Distributor.queue Distributor.empty)).inFlight =
      List.zip (peers.map (fun p => p.id)) reqs := by
    rw [hq, h.1]
    simp [Distributor.empty]
  refine ⟨by rw [hq], hin, ?_, ?_, ?_⟩
  · simp only [Distributor.dispatched, hin]
    rw [map_snd_zip_take]
    simp
  · rw [hq, h.2]
  · intro i hi hr
    rw [hin]
    simp [List.get?_eq_getElem?, List.getElem?_zip_eq_some, hi, hr]

/-- C15 at the mock requests and peers: peer 8, idle first, is assigned request 100, peer
9 request 101, and request 102 is still queued. -/
theorem fifo_dispatch_witness :
    (∀ r ∈ mockRequests, r.kind = Kind.proof) ∧
    (∀ p ∈ mockPeers, p.canServe Kind.proof = true) ∧
    (mockPeers.foldl Distributor.peerAvailable
        (mockRequests.foldl Distributor.queue Distributor.empty)).inFlight =
      [ (8, { id := 100, kind := .proof, deadline := 50, retries := 0 }),
        (9, { id := 101, kind := .proof, deadline := 60, retries := 0 }) ] ∧
    (mockPeers.foldl Distributor.peerAvailable
        (mockRequests.foldl Distributor.queue Distributor.empty)).queued =
      [ { id := 102, kind := .proof, deadline := 70, retries := 0 } ] :=
  ⟨by decide, by decide,
    (fifo_dispatch Kind.proof mockRequests mockPeers (by decide) (by decide)).2.1,
    (fifo_dispatch Kind.proof mockRequests mockPeers (by decide) (by decide)).2.2.2.1⟩

end RequestDistributor
